import Mathlib

/-!
# Verification of the ImShep M3U8 proxy core

A shallow embedding of the repository's M3U8 playlist-rewriting proxy
(`api/m3u8-proxy.ts`, `api/proxy/[...path].ts`) in Lean 4.

JavaScript strings are modelled as lists of UTF-16 code units (`List Nat`);
byte buffers as lists of bytes (`List Nat`, each below 256).  `Buffer.from`
and `TextEncoder`/`TextDecoder` are modelled by an explicit UTF-8
encoder/decoder; `Buffer`'s base64 codec by explicit sextet chunking.
Time is passed explicitly as the 60-second bucket number that
`Math.floor(Date.now() / 60000)` would produce.
-/

/-- Code units of a Lean string literal (all literals used here are ASCII,
where scalar values and UTF-16 code units coincide). -/
def strUnits (s : String) : List Nat := s.data.map Char.toNat

/-- JavaScript whitespace as trimmed by `String.prototype.trim` (common set:
tab, LF, VT, FF, CR, space). -/
def isJsWhitespace (c : Nat) : Bool := c = 9 || c = 10 || c = 11 || c = 12 || c = 13 || c = 32

/-- `String.prototype.trim`: strip leading and trailing whitespace. -/
def jsTrim (l : List Nat) : List Nat :=
  ((l.dropWhile isJsWhitespace).reverse.dropWhile isJsWhitespace).reverse

/-- `String.prototype.split(sep)` for a single-character separator: always
returns at least one (possibly empty) chunk. -/
def jsSplit (sep : Nat) : List Nat → List (List Nat)
  | [] => [[]]
  | c :: rest =>
    if c = sep then [] :: jsSplit sep rest
    else
      match jsSplit sep rest with
      | [] => [[c]]
      | h :: t => (c :: h) :: t

/-- `Array.prototype.join(sep)` for a single-character separator. -/
def joinSep (sep : Nat) : List (List Nat) → List Nat
  | [] => []
  | [x] => x
  | x :: xs => x ++ sep :: joinSep sep xs

/-- Whether `pat` is a prefix of `l` (`String.prototype.startsWith`). -/
def listStarts : List Nat → List Nat → Bool
  | [], _ => true
  | _ :: _, [] => false
  | p :: ps, c :: cs => p == c && listStarts ps cs

/-- Whether `pat` occurs as a contiguous substring of `l`
(`String.prototype.includes`). -/
def containsSub (pat : List Nat) : List Nat → Bool
  | [] => listStarts pat []
  | c :: rest => listStarts pat (c :: rest) || containsSub pat rest

/-- `String.prototype.replace(/a/g, b)` for single characters. -/
def jsReplaceAllChar (a b : Nat) (l : List Nat) : List Nat :=
  l.map fun c => if c = a then b else c

/-- Decimal digits of `n`, least significant first (empty for 0); `fuel`
bounds the recursion and is sufficient whenever `n ≤ fuel`. -/
def natDigitsRev : Nat → Nat → List Nat
  | _, 0 => []
  | 0, _ + 1 => []
  | fuel + 1, n + 1 => (48 + (n + 1) % 10) :: natDigitsRev fuel ((n + 1) / 10)

/-- JavaScript number-to-string coercion for a natural number
(as in the template literal forming the token payload). -/
def natToString (n : Nat) : List Nat :=
  if n = 0 then [48] else (natDigitsRev n n).reverse

/-- ASCII decimal digit test. -/
def isDigitUnit (c : Nat) : Bool := 48 ≤ c && c ≤ 57

/-- Value of a list of ASCII decimal digits, most significant first. -/
def digitsVal (l : List Nat) : Nat := l.foldl (fun a c => a * 10 + (c - 48)) 0

/-- JavaScript `parseInt` on the decimal path: skip whitespace, optional
sign, then the longest digit prefix; `none` models `NaN` (no digits). -/
def jsParseInt (l : List Nat) : Option Int :=
  let t := l.dropWhile isJsWhitespace
  match t with
  | 45 :: rest =>
    let d := rest.takeWhile isDigitUnit
    if d = [] then none else some (-(digitsVal d : Int))
  | 43 :: rest =>
    let d := rest.takeWhile isDigitUnit
    if d = [] then none else some (digitsVal d)
  | rest =>
    let d := rest.takeWhile isDigitUnit
    if d = [] then none else some (digitsVal d)

/-- `parseInt` applied to a possibly-undefined value (`undefined` → `NaN`). -/
def jsParseIntOpt : Option (List Nat) → Option Int
  | none => none
  | some l => jsParseInt l

/-- UTF-8 encoding of one scalar value / BMP code unit
(`TextEncoder.encode`, `Buffer.from(string)`). -/
def utf8EncodeScalar (c : Nat) : List Nat :=
  if c < 128 then [c]
  else if c < 2048 then [192 + c / 64, 128 + c % 64]
  else if c < 65536 then [224 + c / 4096, 128 + c / 64 % 64, 128 + c % 64]
  else [240 + c / 262144, 128 + c / 4096 % 64, 128 + c / 64 % 64, 128 + c % 64]

/-- UTF-8 encoding of a string (its list of scalar values). -/
def utf8Encode : List Nat → List Nat
  | [] => []
  | c :: rest => utf8EncodeScalar c ++ utf8Encode rest

/-- UTF-8 decoding of a byte list (`TextDecoder.decode`,
`Buffer.prototype.toString`), fuelled for structural recursion (`fuel` is
sufficient whenever it is at least the list length); truncated sequences
yield U+FFFD. -/
def utf8DecodeAux : Nat → List Nat → List Nat
  | _, [] => []
  | 0, _ => []
  | fuel + 1, b :: rest =>
    if b < 128 then b :: utf8DecodeAux fuel rest
    else if b < 224 then
      if rest.length < 1 then [65533]
      else ((b - 192) * 64 + (rest.getD 0 0 - 128)) :: utf8DecodeAux fuel (rest.drop 1)
    else if b < 240 then
      if rest.length < 2 then [65533]
      else
        ((b - 224) * 4096 + (rest.getD 0 0 - 128) * 64 + (rest.getD 1 0 - 128)) ::
          utf8DecodeAux fuel (rest.drop 2)
    else
      if rest.length < 3 then [65533]
      else
        ((b - 240) * 262144 + (rest.getD 0 0 - 128) * 4096 + (rest.getD 1 0 - 128) * 64 +
          (rest.getD 2 0 - 128)) :: utf8DecodeAux fuel (rest.drop 3)

/-- UTF-8 decoding of a byte list. -/
def utf8Decode (l : List Nat) : List Nat := utf8DecodeAux l.length l

/-- Standard base64 alphabet: the character for sextet `v`. -/
def b64Char (v : Nat) : Nat :=
  if v < 26 then 65 + v
  else if v < 52 then 71 + v
  else if v < 62 then v - 4
  else if v = 62 then 43
  else 47

/-- Inverse base64 alphabet: the sextet for a character, `none` for
characters the decoder skips (including padding). -/
def sextetOf (c : Nat) : Option Nat :=
  if 65 ≤ c ∧ c ≤ 90 then some (c - 65)
  else if 97 ≤ c ∧ c ≤ 122 then some (c - 71)
  else if 48 ≤ c ∧ c ≤ 57 then some (c + 4)
  else if c = 43 then some 62
  else if c = 47 then some 63
  else none

/-- `Buffer.prototype.toString('base64')`: bytes to base64 characters with
padding. -/
def b64EncodeRaw : List Nat → List Nat
  | [] => []
  | [a] => [b64Char (a / 4), b64Char (a % 4 * 16), 61, 61]
  | [a, b] => [b64Char (a / 4), b64Char (a % 4 * 16 + b / 16), b64Char (b % 16 * 4), 61]
  | a :: b :: c :: rest =>
    b64Char (a / 4) :: b64Char (a % 4 * 16 + b / 16) :: b64Char (b % 16 * 4 + c / 64) ::
      b64Char (c % 64) :: b64EncodeRaw rest

/-- Reassemble bytes from a list of sextets, tolerating missing padding as
`Buffer.from(_, 'base64')` does (2 leftover sextets → 1 byte, 3 → 2, 1 → 0). -/
def b64DecodeSextets : List Nat → List Nat
  | a :: b :: c :: d :: rest =>
    (a * 4 + b / 16) :: (b % 16 * 16 + c / 4) :: (c % 4 * 64 + d) :: b64DecodeSextets rest
  | [a, b, c] => [a * 4 + b / 16, b % 16 * 16 + c / 4]
  | [a, b] => [a * 4 + b / 16]
  | _ => []

/-- Verification artifact: the sextet stream underlying `b64EncodeRaw`
(the encoder's characters are `b64Char` of these values, plus padding). -/
def b64Sextets : List Nat → List Nat
  | [] => []
  | [a] => [a / 4, a % 4 * 16]
  | [a, b] => [a / 4, a % 4 * 16 + b / 16, b % 16 * 4]
  | a :: b :: c :: rest =>
    a / 4 :: (a % 4 * 16 + b / 16) :: (b % 16 * 4 + c / 64) :: c % 64 :: b64Sextets rest

/-- Verification artifact: the per-character effect of the two forward
replacements (plus → hyphen, slash → underscore). -/
def urlSafeChar (c : Nat) : Nat := if c = 43 then 45 else if c = 47 then 95 else c

/-- Verification artifact: the per-character effect of the two backward
replacements (hyphen → plus, underscore → slash). -/
def urlUnsafeChar (c : Nat) : Nat := if c = 45 then 43 else if c = 95 then 47 else c

/-- The source's URL-safe token encoding: `toString('base64')` followed by
globally replacing plus with hyphen and slash with underscore, then deleting
every padding `=`. -/
def toBase64Url (bytes : List Nat) : List Nat :=
  (jsReplaceAllChar 47 95 (jsReplaceAllChar 43 45 (b64EncodeRaw bytes))).filter fun c => c != 61

/-- The source's URL-safe token decoding: globally replace hyphen back to
plus and underscore back to slash, then decode as base64 via
`Buffer.from(s, 'base64')`. -/
def fromBase64Url (l : List Nat) : List Nat :=
  b64DecodeSextets ((jsReplaceAllChar 95 47 (jsReplaceAllChar 45 43 l)).filterMap sextetOf)

/-- `key.charCodeAt(i % key.length)`: for an empty key the index is `NaN`,
`charCodeAt` yields `NaN`, and `^` coerces `NaN` to 0. -/
def keyCharAt (key : List Nat) (i : Nat) : Nat := key.getD (i % key.length) 0

/-- The repeating-key XOR loop shared by `generateToken`, `verifyToken`,
`encryptUrl` and `decryptUrl`, starting at index `i`. -/
def xorCrypt (key : List Nat) : Nat → List Nat → List Nat
  | _, [] => []
  | i, c :: rest => (c ^^^ keyCharAt key i) :: xorCrypt key (i + 1) rest

/-- `generateToken(url)` from `api/m3u8-proxy.ts` (token-auth revision),
with the key (`API_KEY.substring(0, 16)`) and the current 60-second time
bucket passed explicitly. -/
def generateToken (key url : List Nat) (bucket : Nat) : List Nat :=
  toBase64Url (utf8Encode (xorCrypt key 0 (url ++ 58 :: natToString bucket)))

/-- `verifyToken(token, url)` from `api/m3u8-proxy.ts`: decodes the token,
destructures `original.split(':')` into its first two chunks, and accepts
iff the first chunk equals `url` and the parsed bucket is within 5 of the
current bucket (`NaN` comparisons are false). -/
def verifyToken (key token url : List Nat) (currentBucket : Nat) : Bool :=
  let decoded := utf8Decode (fromBase64Url token)
  let original := xorCrypt key 0 decoded
  let parts := jsSplit 58 original
  let tokenUrl := parts.headD []
  let tokenTime := parts.get? 1
  tokenUrl == url &&
    match jsParseIntOpt tokenTime with
    | none => false
    | some t => decide ((Int.ofNat currentBucket - t).natAbs ≤ 5)

/-- `encodeURIComponent` unreserved characters: ASCII alphanumerics and
`- _ . ! ~ * ' ( )`. -/
def isUnreservedUC (c : Nat) : Bool :=
  (65 ≤ c && c ≤ 90) || (97 ≤ c && c ≤ 122) || (48 ≤ c && c ≤ 57) ||
    c = 45 || c = 95 || c = 46 || c = 33 || c = 126 || c = 42 || c = 39 || c = 40 || c = 41

/-- Uppercase hex digit for a value below 16. -/
def hexUpper (n : Nat) : Nat := if n < 10 then 48 + n else 55 + n

/-- Percent-encoding of one byte: `%XX` with uppercase hex. -/
def pctByte (b : Nat) : List Nat := [37, hexUpper (b / 16), hexUpper (b % 16)]

/-- Percent-encoding of a byte list. -/
def pctBytes : List Nat → List Nat
  | [] => []
  | b :: rest => pctByte b ++ pctBytes rest

/-- `encodeURIComponent`: unreserved characters pass through, everything
else is percent-encoded as its UTF-8 bytes. -/
def encodeURIComponent : List Nat → List Nat
  | [] => []
  | c :: rest =>
    (if isUnreservedUC c then [c] else pctBytes (utf8EncodeScalar c)) ++ encodeURIComponent rest

/-- The components of a parsed absolute URL used by the handlers:
`protocol` keeps its trailing colon, `host` includes any port, `pathname`
starts with a slash, exactly as the WHATWG `URL` accessors behave. -/
structure JsUrl where
  protocol : List Nat
  host : List Nat
  pathname : List Nat
deriving DecidableEq, Repr

/-- Parse the `protocol` / `host` / `pathname` accessors of `new URL(s)` for
a well-formed absolute `http(s)` URL (no userinfo; query and fragment are
cut off the pathname). -/
def parseHttpUrl (l : List Nat) : JsUrl :=
  let protocol := (l.takeWhile fun c => c != 58) ++ [58]
  let afterScheme := l.drop (protocol.length + 2)
  let host := afterScheme.takeWhile fun c => c != 47 && c != 63 && c != 35
  let rest := afterScheme.drop host.length
  let pathname := if rest.head? == some 47 then rest.takeWhile fun c => c != 63 && c != 35 else [47]
  ⟨protocol, host, pathname⟩

/-- `baseUrl.pathname.substring(0, baseUrl.pathname.lastIndexOf('/') + 1)`:
the pathname truncated just after its last slash (empty if no slash). -/
def basePathOf (pathname : List Nat) : List Nat :=
  ((pathname.reverse.dropWhile fun c => c != 47)).reverse

/-- `resolveUrl(target, baseUrl, basePath)` from `api/m3u8-proxy.ts`
(simplified revision, lines 621-639): absolute URL, protocol-relative,
absolute path, and relative path, in that priority order. -/
def resolveUrl (target : List Nat) (base : JsUrl) (basePath : List Nat) : List Nat :=
  if listStarts (strUnits "http://") target || listStarts (strUnits "https://") target then
    target
  else if listStarts (strUnits "//") target then
    base.protocol ++ target
  else if listStarts (strUnits "/") target then
    base.protocol ++ strUnits "//" ++ base.host ++ target
  else
    base.protocol ++ strUnits "//" ++ base.host ++ basePath ++ target

/-- `getCorsHeaders(origin)` from `api/m3u8-proxy.ts` (token-auth revision):
the allowed origin is the request origin when truthy and in the allow-list,
otherwise the first configured origin. -/
def getCorsHeaders (allowed : List (List Nat)) (origin : Option (List Nat)) :
    List (String × List Nat) :=
  let allowedOrigin :=
    match origin with
    | some o => if o != [] && allowed.contains o then o else allowed.headD []
    | none => allowed.headD []
  [("Access-Control-Allow-Origin", allowedOrigin),
   ("Access-Control-Allow-Methods", strUnits "GET, OPTIONS"),
   ("Access-Control-Allow-Headers", strUnits "Content-Type, Range"),
   ("Access-Control-Max-Age", strUnits "86400"),
   ("Access-Control-Expose-Headers", strUnits "Content-Length, Content-Type, Content-Range")]

/-- `Headers.prototype.set`: the new pair shadows any previous binding
(lookup takes the first match). -/
def setHeader (k : String) (v : List Nat) (h : List (String × List Nat)) :
    List (String × List Nat) := (k, v) :: h

/-- `headers.get(name) || ''` followed by `if (value) headers.set(...)`:
set only when the upstream header is present and nonempty. -/
def setIfNonempty (k : String) (o : Option (List Nat)) (h : List (String × List Nat)) :
    List (String × List Nat) :=
  let v := o.getD []
  if v != [] then setHeader k v h else h

/-- First-match header lookup. -/
def lookupHeader (k : String) (h : List (String × List Nat)) : Option (List Nat) :=
  List.lookup k h

/-- `JSON.stringify` of a one-field error object (97 123 etc. are the code
units of the braces and quotes). -/
def jsonError (msg : List Nat) : List Nat :=
  [123, 34] ++ strUnits "error" ++ [34, 58, 34] ++ msg ++ [34, 125]

/-- `JSON.stringify` of the two-field catch-path body with an `error` and a
`details` member. -/
def jsonErrorDetails (msg details : List Nat) : List Nat :=
  [123, 34] ++ strUnits "error" ++ [34, 58, 34] ++ msg ++ [34, 44, 34] ++
    strUnits "details" ++ [34, 58, 34] ++ details ++ [34, 125]

/-- The inline three-case resolution shared by the token-auth and
path-based rewrite loops (absolute URL, absolute path, relative path —
these revisions have no protocol-relative case). -/
def v1Resolve (base : JsUrl) (line : List Nat) : List Nat :=
  if listStarts (strUnits "http://") line || listStarts (strUnits "https://") line then line
  else if listStarts [47] line then base.protocol ++ strUnits "//" ++ base.host ++ line
  else base.protocol ++ strUnits "//" ++ base.host ++ basePathOf base.pathname ++ line

/-- The referer carry-through shared by both rewrite loops: append the
reserved `__referer` query parameter when a referer annotation is present. -/
def withReferer (refererParam : Option (List Nat)) (absoluteUrl : List Nat) : List Nat :=
  match refererParam with
  | some ref =>
    absoluteUrl ++ (if containsSub [63] absoluteUrl then [38] else [63]) ++
      strUnits "__referer=" ++ encodeURIComponent ref
  | none => absoluteUrl

/-- One line of the token-auth playlist rewrite (`api/m3u8-proxy.ts` lines
164-195): comments and blanks pass through trimmed; other lines are
resolved, optionally annotated with the referer parameter, tokenised, and
replaced by the proxy URL. -/
def rewriteV1Line (key : List Nat) (bucket : Nat) (base : JsUrl)
    (refererParam : Option (List Nat)) (urlOrigin urlPathname : List Nat)
    (line0 : List Nat) : List Nat :=
  let line := jsTrim line0
  if line == [] || listStarts [35] line then line
  else
    let absoluteUrl2 := withReferer refererParam (v1Resolve base line)
    urlOrigin ++ urlPathname ++ strUnits "?url=" ++ encodeURIComponent absoluteUrl2 ++
      strUnits "&token=" ++ generateToken key absoluteUrl2 bucket

/-- The token-auth playlist rewrite (`api/m3u8-proxy.ts` lines 161-197):
split on newlines, rewrite each line, join with newlines. -/
def rewriteV1Playlist (key : List Nat) (bucket : Nat) (base : JsUrl)
    (refererParam : Option (List Nat)) (urlOrigin urlPathname : List Nat)
    (text : List Nat) : List Nat :=
  joinSep 10 ((jsSplit 10 text).map (rewriteV1Line key bucket base refererParam urlOrigin urlPathname))

/-- The global regex replace over a tag line: every occurrence of
`URI="..."` (nonempty quote-free capture, greedy) has its capture rewritten
by `f`, exactly as `line.replace(URI-pattern, callback)` does. -/
def replaceURIAllAux (f : List Nat → List Nat) : Nat → List Nat → List Nat
  | _, [] => []
  | 0, l => l
  | fuel + 1, c :: rest =>
    if listStarts (strUnits "URI=\"") (c :: rest) then
      let cap := ((c :: rest).drop 5).takeWhile fun x => x != 34
      if cap != [] && (((c :: rest).drop 5).drop cap.length).head? == some 34 then
        strUnits "URI=\"" ++ f cap ++ [34] ++
          replaceURIAllAux f fuel ((((c :: rest).drop 5).drop cap.length).drop 1)
      else c :: replaceURIAllAux f fuel rest
    else c :: replaceURIAllAux f fuel rest

/-- Entry point for the scan: the fuel starts at the line length, which the
scan never exhausts (each step consumes at least one character). -/
def replaceURIAll (f : List Nat → List Nat) (l : List Nat) : List Nat :=
  replaceURIAllAux f l.length l

/-- One line of the simplified-revision playlist rewrite
(`api/m3u8-proxy.ts` lines 534-557): blank lines and `#EXT` tags pass
through trimmed unless they embed a quoted URI, which is resolved and
proxied (with no token); non-comment lines become proxy URLs; other `#`
lines pass through trimmed. -/
def rewriteV3Line (base : JsUrl) (basePath urlOrigin urlPathname : List Nat)
    (line : List Nat) : List Nat :=
  let t := jsTrim line
  if t == [] || listStarts (strUnits "#EXT") t then
    if containsSub (strUnits "URI=\"") t then
      replaceURIAll
        (fun uri =>
          urlOrigin ++ urlPathname ++ strUnits "?url=" ++
            encodeURIComponent (resolveUrl uri base basePath)) t
    else t
  else if !listStarts [35] t then
    urlOrigin ++ urlPathname ++ strUnits "?url=" ++
      encodeURIComponent (resolveUrl t base basePath)
  else t

/-- The simplified-revision playlist rewrite (`api/m3u8-proxy.ts` lines
527-557): the base URL is parsed from `response.url`, the final URL after
redirects, and every line is rewritten against it. -/
def rewriteV3Playlist (responseUrl urlOrigin urlPathname text : List Nat) : List Nat :=
  let baseUrl := parseHttpUrl responseUrl
  let basePath := basePathOf baseUrl.pathname
  joinSep 10 ((jsSplit 10 text).map (rewriteV3Line baseUrl basePath urlOrigin urlPathname))

/-- `encryptUrl(url)` from `api/proxy/[...path].ts`: XOR the UTF-8 bytes of
the URL with the repeating UTF-8 bytes of the key (`API_KEY.substring(0, 32)`),
then base64url-encode without padding. -/
def encryptUrl (key url : List Nat) : List Nat :=
  toBase64Url (xorCrypt (utf8Encode key) 0 (utf8Encode url))

/-- `decryptUrl(encrypted)` from `api/proxy/[...path].ts`: decode the
base64url text and XOR with the repeating key bytes, then decode UTF-8. -/
def decryptUrl (key enc : List Nat) : List Nat :=
  utf8Decode (xorCrypt (utf8Encode key) 0 (fromBase64Url enc))

/-- `generatePath(url)` from `api/proxy/[...path].ts`: the last (up to)
three nonempty pathname segments joined with slashes, or `stream.m3u8`. -/
def generatePath (url : List Nat) : List Nat :=
  let urlObj := parseHttpUrl url
  let pathParts := (jsSplit 47 urlObj.pathname).filter fun p => p != []
  let cleanPath := joinSep 47 (pathParts.drop (pathParts.length - 3))
  if cleanPath == [] then strUnits "stream.m3u8" else cleanPath

/-- `createProxyPath(originalUrl)` from `api/proxy/[...path].ts`, as seen by
the rewrite loop: it returns the clean path.  (The function also inserts the
encrypted URL and the clean path into the process-global `urlMappings` map;
that shared mutable cache is outside this per-request model.) -/
def createProxyPath (key originalUrl : List Nat) : List Nat :=
  let _encrypted := encryptUrl key originalUrl
  generatePath originalUrl

/-- One line of the path-based proxy playlist rewrite
(`api/proxy/[...path].ts` lines 217-242): blank and `#` lines are pushed
unchanged (the original, untrimmed line); other lines are resolved,
referer-annotated, and replaced by a clean proxy path URL. -/
def pathRewriteLine (key : List Nat) (base : JsUrl) (refererParam : Option (List Nat))
    (urlOrigin : List Nat) (line : List Nat) : List Nat :=
  let trimmedLine := jsTrim line
  if trimmedLine == [] || listStarts [35] trimmedLine then line
  else
    let absoluteUrl2 := withReferer refererParam (v1Resolve base trimmedLine)
    let proxyPath := createProxyPath key absoluteUrl2
    urlOrigin ++ strUnits "/api/proxy/" ++ encodeURIComponent proxyPath

/-- The path-based proxy playlist rewrite (`api/proxy/[...path].ts` lines
214-247): split on newlines, rewrite each line, join with newlines. -/
def pathRewritePlaylist (key : List Nat) (base : JsUrl) (refererParam : Option (List Nat))
    (urlOrigin : List Nat) (text : List Nat) : List Nat :=
  joinSep 10 ((jsSplit 10 text).map (pathRewriteLine key base refererParam urlOrigin))

/-- A produced HTTP response: status, optional body text, and headers
(first-match-wins association list). -/
structure HttpResponse where
  status : Nat
  body : Option (List Nat)
  headers : List (String × List Nat)
deriving DecidableEq, Repr

/-- Outcome of the pre-fetch phase of the token-auth handler: an early
response, or the validated target URL to fetch upstream. -/
inductive GateResult where
  | early (resp : HttpResponse)
  | proceed (targetUrl : List Nat)
deriving DecidableEq, Repr

/-- The upstream `fetch` response as the handler observes it. -/
structure Upstream where
  ok : Bool
  status : Nat
  contentType : Option (List Nat)
  contentLength : Option (List Nat)
  contentRange : Option (List Nat)
  acceptRanges : Option (List Nat)
  finalUrl : List Nat
  bodyText : List Nat
deriving DecidableEq, Repr

/-- The upstream interaction: either the try-block threw (invalid URL,
network failure, or the 10s abort — `msg` is `error.message`), or a
response arrived. -/
inductive FetchOutcome where
  | threw (msg : List Nat)
  | got (r : Upstream)
deriving DecidableEq, Repr

/-- Pre-fetch phase of the token-auth handler (`api/m3u8-proxy.ts` lines
63-99): OPTIONS preflight, missing-url check (empty string is falsy), and
the token gate; only a verified token reaches the upstream fetch. -/
def handlerGate (allowed : List (List Nat)) (key : List Nat) (bucket : Nat)
    (method : List Nat) (origin urlParam tokenParam : Option (List Nat)) : GateResult :=
  if method == strUnits "OPTIONS" then
    .early ⟨204, none, getCorsHeaders allowed origin⟩
  else
    let targetUrl := urlParam.getD []
    if targetUrl == [] then
      .early ⟨400, some (jsonError (strUnits "Missing url parameter")),
        ("Content-Type", strUnits "application/json") :: getCorsHeaders allowed origin⟩
    else
      let token := tokenParam.getD []
      if token == [] || !verifyToken key token targetUrl bucket then
        .early ⟨401, some (jsonError (strUnits "Invalid or expired token")),
          ("Content-Type", strUnits "application/json") :: getCorsHeaders allowed origin⟩
      else .proceed targetUrl

/-- Post-gate phase of the token-auth handler (`api/m3u8-proxy.ts` lines
101-240).  `refererParam` and `cleanTargetUrl` stand for the values the
handler computes from `new URL(targetUrl)` (the reserved `__referer` query
parameter and the re-serialised URL with it removed); any exception in the
try block is the `threw` outcome.  Note the playlist branch parses its base
URL from `cleanTargetUrl` — the requested URL — not from the response's
final URL. -/
def handlerAfterGate (allowed : List (List Nat)) (key : List Nat) (bucket : Nat)
    (origin : Option (List Nat)) (urlOrigin urlPathname targetUrl : List Nat)
    (refererParam : Option (List Nat)) (cleanTargetUrl : List Nat)
    (fetch : FetchOutcome) : HttpResponse :=
  match fetch with
  | .threw msg =>
    ⟨500, some (jsonErrorDetails (strUnits "Proxy failed") msg),
      ("Content-Type", strUnits "application/json") :: getCorsHeaders allowed origin⟩
  | .got r =>
    if !r.ok then
      ⟨r.status, some (jsonError (strUnits "Upstream error: " ++ natToString r.status)),
        ("Content-Type", strUnits "application/json") :: getCorsHeaders allowed origin⟩
    else
      let contentType := r.contentType.getD []
      if containsSub (strUnits "mpegurl") contentType || containsSub (strUnits "m3u") contentType ||
          containsSub (strUnits ".m3u8") targetUrl then
        ⟨200, some (rewriteV1Playlist key bucket (parseHttpUrl cleanTargetUrl) refererParam
            urlOrigin urlPathname r.bodyText),
          ("Content-Type", strUnits "application/vnd.apple.mpegurl") ::
            ("Cache-Control", strUnits "public, max-age=10, s-maxage=10") ::
              getCorsHeaders allowed origin⟩
      else
        let h0 := getCorsHeaders allowed origin
        let h1 := setIfNonempty "Content-Type" r.contentType h0
        let h2 := setIfNonempty "Content-Length" r.contentLength h1
        let h3 := setIfNonempty "Content-Range" r.contentRange h2
        let h4 := setIfNonempty "Accept-Ranges" r.acceptRanges h3
        ⟨r.status, some r.bodyText,
          setHeader "Cache-Control" (strUnits "public, max-age=3600, immutable") h4⟩

/-- The complete token-auth handler: gate, then the post-gate phase. -/
def handlerRespond (allowed : List (List Nat)) (key : List Nat) (bucket : Nat)
    (method : List Nat) (origin urlParam tokenParam : Option (List Nat))
    (urlOrigin urlPathname : List Nat) (refererParam : Option (List Nat))
    (cleanTargetUrl : List Nat) (fetch : FetchOutcome) : HttpResponse :=
  match handlerGate allowed key bucket method origin urlParam tokenParam with
  | .early resp => resp
  | .proceed targetUrl =>
    handlerAfterGate allowed key bucket origin urlOrigin urlPathname targetUrl
      refererParam cleanTargetUrl fetch

/-! ## Helper lemmas: lists, splitting, trimming -/

theorem length_takeWhile_le (p : Nat → Bool) (l : List Nat) :
    (l.takeWhile p).length ≤ l.length := by
  induction l with
  | nil => simp
  | cons c rest ih =>
    by_cases h : p c = true
    · simp only [List.takeWhile_cons, h, if_true, List.length_cons]
      omega
    · have hf : p c = false := by simpa using h
      simp [List.takeWhile_cons, hf]

theorem takeWhile_all (p : Nat → Bool) (u : List Nat) (h : ∀ a ∈ u, p a = true) :
    u.takeWhile p = u := by
  induction u with
  | nil => simp
  | cons c rest ih =>
    have hc := h c (by simp)
    rw [List.takeWhile_cons_of_pos hc, ih fun a ha => h a (by simp [ha])]

theorem takeWhile_append_all (p : Nat → Bool) (u v : List Nat) (h : ∀ a ∈ u, p a = true) :
    (u ++ v).takeWhile p = u ++ v.takeWhile p := by
  induction u with
  | nil => simp
  | cons c rest ih =>
    have hc := h c (by simp)
    simp [List.takeWhile, hc]
    exact ih fun a ha => h a (by simp [ha])

theorem takeWhile_append_stop (p : Nat → Bool) (u v : List Nat) (h : ∃ a ∈ u, p a = false) :
    (u ++ v).takeWhile p = u.takeWhile p := by
  induction u with
  | nil => simp at h
  | cons c rest ih =>
    by_cases hc : p c = true
    · obtain ⟨a, ha, hpa⟩ := h
      rcases List.mem_cons.mp ha with rfl | ha'
      · rw [hpa] at hc; cases hc
      · simp [List.takeWhile, hc]
        exact ih ⟨a, ha', hpa⟩
    · simp only [Bool.not_eq_true] at hc
      simp [List.takeWhile, hc]

theorem length_takeWhile_lt (p : Nat → Bool) (u : List Nat) (h : ∃ a ∈ u, p a = false) :
    (u.takeWhile p).length < u.length := by
  induction u with
  | nil => simp at h
  | cons c rest ih =>
    by_cases hc : p c = true
    · obtain ⟨a, ha, hpa⟩ := h
      rcases List.mem_cons.mp ha with rfl | ha'
      · rw [hpa] at hc; cases hc
      · simp only [List.takeWhile, hc, List.length_cons]
        have := ih ⟨a, ha', hpa⟩
        omega
    · simp only [Bool.not_eq_true] at hc
      simp [List.takeWhile, hc]

theorem jsSplit_ne_nil (sep : Nat) (l : List Nat) : jsSplit sep l ≠ [] := by
  induction l with
  | nil => simp [jsSplit]
  | cons c rest ih =>
    by_cases h : c = sep
    · simp [jsSplit, h]
    · simp only [jsSplit, if_neg h]
      cases hs : jsSplit sep rest <;> simp

theorem jsSplit_headD (sep : Nat) (l : List Nat) :
    (jsSplit sep l).headD [] = l.takeWhile fun c => c != sep := by
  induction l with
  | nil => simp [jsSplit]
  | cons c rest ih =>
    by_cases h : c = sep
    · simp [jsSplit, h, List.takeWhile]
    · simp only [jsSplit, if_neg h]
      cases hs : jsSplit sep rest with
      | nil => exact absurd hs (jsSplit_ne_nil sep rest)
      | cons hd tl =>
        rw [hs] at ih
        simp only [List.headD] at ih
        have hb : (c != sep) = true := by simp [bne_iff_ne, h]
        simp only [List.headD, List.takeWhile_cons, hb, if_true, ih]

theorem jsSplit_no_sep (sep : Nat) (l : List Nat) (h : sep ∉ l) : jsSplit sep l = [l] := by
  induction l with
  | nil => simp [jsSplit]
  | cons c rest ih =>
    have hc : c ≠ sep := fun e => h (by simp [e])
    have hr : sep ∉ rest := fun e => h (by simp [e])
    simp only [jsSplit, if_neg hc, ih hr]

theorem jsSplit_append_sep (sep : Nat) (x y : List Nat) (hx : sep ∉ x) :
    jsSplit sep (x ++ sep :: y) = x :: jsSplit sep y := by
  induction x with
  | nil => simp [jsSplit]
  | cons c rest ih =>
    have hc : c ≠ sep := fun e => hx (by simp [e])
    have hr : sep ∉ rest := fun e => hx (by simp [e])
    simp only [List.cons_append, jsSplit, if_neg hc, List.append_eq, ih hr]

theorem not_mem_of_mem_jsSplit (sep : Nat) (l p : List Nat) (hp : p ∈ jsSplit sep l) :
    sep ∉ p := by
  induction l generalizing p with
  | nil =>
    simp [jsSplit] at hp
    simp [hp]
  | cons c rest ih =>
    by_cases h : c = sep
    · simp only [jsSplit, if_pos h, List.mem_cons] at hp
      rcases hp with rfl | hp'
      · simp
      · exact ih p hp'
    · simp only [jsSplit, if_neg h] at hp
      cases hs : jsSplit sep rest with
      | nil => exact absurd hs (jsSplit_ne_nil sep rest)
      | cons hd tl =>
        rw [hs] at hp
        simp only [List.mem_cons] at hp
        rcases hp with rfl | hp'
        · intro hm
          rcases List.mem_cons.mp hm with rfl | hm'
          · exact h rfl
          · exact ih hd (by rw [hs]; simp) hm'
        · exact ih p (by rw [hs]; simp [hp'])

theorem jsSplit_joinSep (sep : Nat) (ps : List (List Nat)) (hne : ps ≠ [])
    (h : ∀ p ∈ ps, sep ∉ p) : jsSplit sep (joinSep sep ps) = ps := by
  induction ps with
  | nil => exact absurd rfl hne
  | cons x rest ih =>
    cases rest with
    | nil =>
      simp only [joinSep]
      exact jsSplit_no_sep sep x (h x (by simp))
    | cons y tl =>
      have hjoin : joinSep sep (x :: y :: tl) = x ++ sep :: joinSep sep (y :: tl) := rfl
      rw [hjoin, jsSplit_append_sep sep x _ (h x (by simp)),
        ih (by simp) fun p hp => h p (by simp [List.mem_cons] at hp ⊢; tauto)]

theorem mem_of_mem_jsTrim (c : Nat) (l : List Nat) (h : c ∈ jsTrim l) : c ∈ l := by
  unfold jsTrim at h
  rw [List.mem_reverse] at h
  have h1 := List.dropWhile_sublist (l := (l.dropWhile isJsWhitespace).reverse)
      (p := isJsWhitespace)
  have h2 := List.dropWhile_sublist (l := l) (p := isJsWhitespace)
  have := h1.mem h
  rw [List.mem_reverse] at this
  exact h2.mem this

theorem dropWhile_eq_self_of_head (p : Nat → Bool) (l : List Nat)
    (h : ∀ a, l.head? = some a → p a = false) : l.dropWhile p = l := by
  cases l with
  | nil => simp
  | cons c rest =>
    have := h c rfl
    simp [List.dropWhile, this]

theorem jsTrim_eq_self (l : List Nat)
    (hh : ∀ a, l.head? = some a → isJsWhitespace a = false)
    (hl : ∀ a, l.getLast? = some a → isJsWhitespace a = false) : jsTrim l = l := by
  unfold jsTrim
  rw [dropWhile_eq_self_of_head _ _ hh]
  rw [dropWhile_eq_self_of_head _ _ (by
    intro a ha
    rw [List.head?_reverse] at ha
    exact hl a ha)]
  exact List.reverse_reverse l

/-! ## Helper lemmas: decimal digits and parseInt -/

theorem natDigitsRev_mem (fuel n c : Nat) (h : c ∈ natDigitsRev fuel n) :
    48 ≤ c ∧ c ≤ 57 := by
  induction fuel generalizing n with
  | zero => cases n <;> simp [natDigitsRev] at h
  | succ fuel ih =>
    cases n with
    | zero => simp [natDigitsRev] at h
    | succ m =>
      simp only [natDigitsRev, List.mem_cons] at h
      rcases h with rfl | h'
      · have := Nat.mod_lt (m + 1) (y := 10) (by omega)
        omega
      · exact ih _ h'

theorem natToString_mem (n c : Nat) (h : c ∈ natToString n) : 48 ≤ c ∧ c ≤ 57 := by
  unfold natToString at h
  by_cases hn : n = 0
  · simp [hn] at h
    omega
  · rw [if_neg hn, List.mem_reverse] at h
    exact natDigitsRev_mem n n c h

theorem natToString_ne_nil (n : Nat) : natToString n ≠ [] := by
  unfold natToString
  by_cases hn : n = 0
  · simp [hn]
  · rw [if_neg hn]
    cases fuel : n with
    | zero => exact absurd fuel hn
    | succ m =>
      cases n with
      | zero => simp at fuel
      | succ k => simp [natDigitsRev]

theorem digitsVal_natDigitsRev (fuel n : Nat) (hn : n ≤ fuel) (acc : Nat) :
    List.foldl (fun a c => a * 10 + (c - 48)) acc (natDigitsRev fuel n).reverse =
      acc * 10 ^ (natDigitsRev fuel n).length + n := by
  induction fuel generalizing n acc with
  | zero =>
    have : n = 0 := by omega
    simp [this, natDigitsRev]
  | succ fuel ih =>
    cases n with
    | zero => simp [natDigitsRev]
    | succ m =>
      have hq : (m + 1) / 10 ≤ fuel := by omega
      simp only [natDigitsRev, List.reverse_cons, List.foldl_append, List.length_cons]
      rw [ih _ hq]
      simp only [List.foldl_cons, List.foldl_nil]
      have hmod := Nat.div_add_mod (m + 1) 10
      have hpow : 10 ^ ((natDigitsRev fuel ((m + 1) / 10)).length + 1) =
          10 ^ (natDigitsRev fuel ((m + 1) / 10)).length * 10 := pow_succ 10 _
      rw [hpow]
      have h48 : 48 + (m + 1) % 10 - 48 = (m + 1) % 10 := by omega
      rw [h48]
      ring_nf
      omega

theorem digitsVal_natToString (n : Nat) : digitsVal (natToString n) = n := by
  unfold natToString digitsVal
  by_cases hn : n = 0
  · simp [hn]
  · rw [if_neg hn, digitsVal_natDigitsRev n n le_rfl 0]
    simp

theorem mem_of_head?_eq (l : List Nat) (a : Nat) (h : l.head? = some a) : a ∈ l := by
  cases l with
  | nil => simp at h
  | cons c cs =>
    simp only [List.head?] at h
    injection h with h
    simp [h]

theorem jsParseInt_natToString (n : Nat) : jsParseInt (natToString n) = some (n : Int) := by
  have hmem := natToString_mem n
  have hne := natToString_ne_nil n
  have hdrop : (natToString n).dropWhile isJsWhitespace = natToString n := by
    apply dropWhile_eq_self_of_head
    intro a ha
    have := hmem a (mem_of_head?_eq _ a ha)
    simp [isJsWhitespace]
    omega
  have htake : (natToString n).takeWhile isDigitUnit = natToString n := by
    apply takeWhile_all
    intro a ha
    have := hmem a ha
    simp [isDigitUnit]
    omega
  unfold jsParseInt
  simp only [hdrop]
  split
  · rename_i rest heq
    have : (45 : Nat) ∈ natToString n := by rw [heq]; simp
    have := hmem 45 this
    omega
  · rename_i rest heq
    have : (43 : Nat) ∈ natToString n := by rw [heq]; simp
    have := hmem 43 this
    omega
  · rw [htake, if_neg hne, digitsVal_natToString]

/-! ## Helper lemmas: the XOR cipher -/

theorem xorCrypt_xorCrypt (key : List Nat) (i : Nat) (l : List Nat) :
    xorCrypt key i (xorCrypt key i l) = l := by
  induction l generalizing i with
  | nil => rfl
  | cons c rest ih =>
    simp only [xorCrypt, Nat.xor_assoc, Nat.xor_self, Nat.xor_zero]
    rw [ih (i + 1)]

theorem getD_mem_or (l : List Nat) (i d : Nat) : l.getD i d ∈ l ∨ l.getD i d = d := by
  induction l generalizing i with
  | nil => simp [List.getD]
  | cons c cs ih =>
    cases i with
    | zero => simp [List.getD]
    | succ j =>
      rcases ih j with h | h
      · left
        simp only [List.getD_cons_succ]
        exact List.mem_cons_of_mem c h
      · right
        simpa using h

theorem keyCharAt_lt (key : List Nat) (i n : Nat) (hk : ∀ c ∈ key, c < 2 ^ n) :
    keyCharAt key i < 2 ^ n := by
  unfold keyCharAt
  rcases getD_mem_or key (i % key.length) 0 with h | h
  · exact hk _ h
  · rw [h]
    exact pow_pos (by norm_num) n

theorem xorCrypt_mem_lt (key : List Nat) (n : Nat) (hk : ∀ c ∈ key, c < 2 ^ n)
    (l : List Nat) (hl : ∀ c ∈ l, c < 2 ^ n) (i : Nat) :
    ∀ c ∈ xorCrypt key i l, c < 2 ^ n := by
  induction l generalizing i with
  | nil => simp [xorCrypt]
  | cons c rest ih =>
    intro x hx
    simp only [xorCrypt, List.mem_cons] at hx
    rcases hx with rfl | hx'
    · exact Nat.xor_lt_two_pow (hl c (by simp)) (keyCharAt_lt key i n hk)
    · exact ih (fun a ha => hl a (by simp [ha])) (i + 1) x hx'

/-! ## Helper lemmas: base64 -/

theorem jsReplaceAllChar_forward (l : List Nat) :
    jsReplaceAllChar 47 95 (jsReplaceAllChar 43 45 l) = l.map urlSafeChar := by
  unfold jsReplaceAllChar
  rw [List.map_map]
  apply List.map_congr_left
  intro c _
  simp only [Function.comp, urlSafeChar]
  by_cases h43 : c = 43
  · simp [h43]
  · by_cases h47 : c = 47 <;> simp [h43, h47]

theorem jsReplaceAllChar_backward (l : List Nat) :
    jsReplaceAllChar 95 47 (jsReplaceAllChar 45 43 l) = l.map urlUnsafeChar := by
  unfold jsReplaceAllChar
  rw [List.map_map]
  apply List.map_congr_left
  intro c _
  simp only [Function.comp, urlUnsafeChar]
  by_cases h45 : c = 45
  · simp [h45]
  · by_cases h95 : c = 95 <;> simp [h45, h95]

theorem sextetOf_round : ∀ v, v < 64 →
    sextetOf (urlUnsafeChar (urlSafeChar (b64Char v))) = some v := by decide

theorem urlSafeChar_b64Char_ne61 : ∀ v, v < 64 → (urlSafeChar (b64Char v) != 61) = true := by
  decide

theorem urlSafeChar_b64Char_props : ∀ v, v < 64 →
    urlSafeChar (b64Char v) ≠ 10 ∧ urlSafeChar (b64Char v) < 128 := by decide

theorem b64EncodeRaw_mem (l : List Nat) (hl : ∀ b ∈ l, b < 256) :
    ∀ x ∈ b64EncodeRaw l, x = 61 ∨ ∃ v, v < 64 ∧ x = b64Char v := by
  induction l using b64EncodeRaw.induct with
  | case1 => simp [b64EncodeRaw]
  | case2 a =>
    have ha := hl a (by simp)
    intro x hx
    simp only [b64EncodeRaw, List.mem_cons] at hx
    rcases hx with rfl | rfl | rfl | hx
    · exact Or.inr ⟨a / 4, by omega, rfl⟩
    · exact Or.inr ⟨a % 4 * 16, by have := Nat.mod_lt a (y := 4) (by omega); omega, rfl⟩
    · exact Or.inl rfl
    · simp at hx
      simp [hx]
  | case3 a b =>
    have ha := hl a (by simp)
    have hb := hl b (by simp)
    intro x hx
    simp only [b64EncodeRaw, List.mem_cons] at hx
    have h1 : a % 4 * 16 + b / 16 < 64 := by
      have := Nat.mod_lt a (y := 4) (by omega)
      omega
    have h2 : b % 16 * 4 < 64 := by
      have := Nat.mod_lt b (y := 16) (by omega)
      omega
    rcases hx with rfl | rfl | rfl | rfl | hx
    · exact Or.inr ⟨a / 4, by omega, rfl⟩
    · exact Or.inr ⟨a % 4 * 16 + b / 16, h1, rfl⟩
    · exact Or.inr ⟨b % 16 * 4, h2, rfl⟩
    · exact Or.inl rfl
    · simp at hx
  | case4 a b c rest ih =>
    have ha := hl a (by simp)
    have hb := hl b (by simp)
    have hc := hl c (by simp)
    intro x hx
    simp only [b64EncodeRaw, List.mem_cons] at hx
    have h1 : a % 4 * 16 + b / 16 < 64 := by
      have := Nat.mod_lt a (y := 4) (by omega)
      omega
    have h2 : b % 16 * 4 + c / 64 < 64 := by
      have := Nat.mod_lt b (y := 16) (by omega)
      omega
    have h3 : c % 64 < 64 := Nat.mod_lt c (by omega)
    rcases hx with rfl | rfl | rfl | rfl | hx
    · exact Or.inr ⟨a / 4, by omega, rfl⟩
    · exact Or.inr ⟨a % 4 * 16 + b / 16, h1, rfl⟩
    · exact Or.inr ⟨b % 16 * 4 + c / 64, h2, rfl⟩
    · exact Or.inr ⟨c % 64, h3, rfl⟩
    · exact ih (fun y hy => hl y (by simp [hy])) x hx

theorem pipelineSextets (l : List Nat) (hl : ∀ b ∈ l, b < 256) :
    (((((b64EncodeRaw l).map urlSafeChar).filter fun c => c != 61).map
      urlUnsafeChar).filterMap sextetOf) = b64Sextets l := by
  induction l using b64EncodeRaw.induct with
  | case1 => simp [b64EncodeRaw, b64Sextets]
  | case2 a =>
    have ha := hl a (by simp)
    have h1 : a / 4 < 64 := by omega
    have h2 : a % 4 * 16 < 64 := by
      have := Nat.mod_lt a (y := 4) (by omega)
      omega
    have e1 := urlSafeChar_b64Char_ne61 _ h1
    have e2 := urlSafeChar_b64Char_ne61 _ h2
    have s1 := sextetOf_round _ h1
    have s2 := sextetOf_round _ h2
    have e61 : urlSafeChar 61 = 61 := rfl
    simp only [b64EncodeRaw, b64Sextets, List.map_cons, List.map_nil, List.filter_cons, e1, e2,
      e61, if_true, if_false, List.filterMap_cons, s1, s2, List.filter_nil, List.filterMap_nil,
      bne_self_eq_false, Bool.false_eq_true]
  | case3 a b =>
    have ha := hl a (by simp)
    have hb := hl b (by simp)
    have h1 : a / 4 < 64 := by omega
    have h2 : a % 4 * 16 + b / 16 < 64 := by
      have := Nat.mod_lt a (y := 4) (by omega)
      omega
    have h3 : b % 16 * 4 < 64 := by
      have := Nat.mod_lt b (y := 16) (by omega)
      omega
    have e1 := urlSafeChar_b64Char_ne61 _ h1
    have e2 := urlSafeChar_b64Char_ne61 _ h2
    have e3 := urlSafeChar_b64Char_ne61 _ h3
    have s1 := sextetOf_round _ h1
    have s2 := sextetOf_round _ h2
    have s3 := sextetOf_round _ h3
    have e61 : urlSafeChar 61 = 61 := rfl
    simp only [b64EncodeRaw, b64Sextets, List.map_cons, List.map_nil, List.filter_cons, e1, e2,
      e3, e61, if_true, if_false, List.filterMap_cons, s1, s2, s3, List.filter_nil,
      List.filterMap_nil, bne_self_eq_false, Bool.false_eq_true]
  | case4 a b c rest ih =>
    have ha := hl a (by simp)
    have hb := hl b (by simp)
    have hc := hl c (by simp)
    have h1 : a / 4 < 64 := by omega
    have h2 : a % 4 * 16 + b / 16 < 64 := by
      have := Nat.mod_lt a (y := 4) (by omega)
      omega
    have h3 : b % 16 * 4 + c / 64 < 64 := by
      have := Nat.mod_lt b (y := 16) (by omega)
      omega
    have h4 : c % 64 < 64 := Nat.mod_lt c (by omega)
    have e1 := urlSafeChar_b64Char_ne61 _ h1
    have e2 := urlSafeChar_b64Char_ne61 _ h2
    have e3 := urlSafeChar_b64Char_ne61 _ h3
    have e4 := urlSafeChar_b64Char_ne61 _ h4
    have s1 := sextetOf_round _ h1
    have s2 := sextetOf_round _ h2
    have s3 := sextetOf_round _ h3
    have s4 := sextetOf_round _ h4
    have ihr := ih fun y hy => hl y (by simp [hy])
    simp only [b64EncodeRaw, b64Sextets, List.map_cons, List.filter_cons, e1, e2, e3, e4,
      if_true, List.filterMap_cons, s1, s2, s3, s4]
    rw [ihr]

theorem b64DecodeSextets_b64Sextets (l : List Nat) (hl : ∀ b ∈ l, b < 256) :
    b64DecodeSextets (b64Sextets l) = l := by
  induction l using b64Sextets.induct with
  | case1 => rfl
  | case2 a =>
    have ha := hl a (by simp)
    simp only [b64Sextets, b64DecodeSextets, List.cons.injEq, and_true]
    omega
  | case3 a b =>
    have ha := hl a (by simp)
    have hb := hl b (by simp)
    simp only [b64Sextets, b64DecodeSextets, List.cons.injEq, and_true]
    constructor
    · omega
    · omega
  | case4 a b c rest ih =>
    have ha := hl a (by simp)
    have hb := hl b (by simp)
    have hc := hl c (by simp)
    have ihr := ih fun y hy => hl y (by simp [hy])
    simp only [b64Sextets, b64DecodeSextets, List.cons.injEq]
    refine ⟨by omega, by omega, by omega, ihr⟩

theorem fromBase64Url_toBase64Url (l : List Nat) (hl : ∀ b ∈ l, b < 256) :
    fromBase64Url (toBase64Url l) = l := by
  unfold fromBase64Url toBase64Url
  rw [jsReplaceAllChar_forward, jsReplaceAllChar_backward, pipelineSextets l hl,
    b64DecodeSextets_b64Sextets l hl]

theorem toBase64Url_mem (l : List Nat) (hl : ∀ b ∈ l, b < 256) :
    ∀ c ∈ toBase64Url l, c ≠ 10 ∧ c < 128 := by
  intro c hc
  unfold toBase64Url at hc
  rw [jsReplaceAllChar_forward, List.mem_filter] at hc
  obtain ⟨hc1, hc2⟩ := hc
  rw [List.mem_map] at hc1
  obtain ⟨x, hx, rfl⟩ := hc1
  rcases b64EncodeRaw_mem l hl x hx with rfl | ⟨v, hv, rfl⟩
  · simp [urlSafeChar] at hc2
  · exact urlSafeChar_b64Char_props v hv

/-! ## Helper lemmas: UTF-8 -/

theorem utf8EncodeScalar_mem_lt (c : Nat) (hc : c < 1114112) :
    ∀ b ∈ utf8EncodeScalar c, b < 256 := by
  intro b hb
  unfold utf8EncodeScalar at hb
  by_cases h1 : c < 128
  · simp [h1] at hb
    omega
  · by_cases h2 : c < 2048
    · simp [h1, h2] at hb
      have : c / 64 < 32 := by omega
      have : c % 64 < 64 := Nat.mod_lt c (by omega)
      rcases hb with rfl | rfl <;> omega
    · by_cases h3 : c < 65536
      · simp [h1, h2, h3] at hb
        have : c / 4096 < 16 := by omega
        have : c / 64 % 64 < 64 := Nat.mod_lt _ (by omega)
        have : c % 64 < 64 := Nat.mod_lt c (by omega)
        rcases hb with rfl | rfl | rfl <;> omega
      · simp [h1, h2, h3] at hb
        have : c / 262144 < 5 := by omega
        have : c / 4096 % 64 < 64 := Nat.mod_lt _ (by omega)
        have : c / 64 % 64 < 64 := Nat.mod_lt _ (by omega)
        have : c % 64 < 64 := Nat.mod_lt c (by omega)
        rcases hb with rfl | rfl | rfl | rfl <;> omega

theorem utf8Encode_mem_lt (l : List Nat) (hl : ∀ c ∈ l, c < 1114112) :
    ∀ b ∈ utf8Encode l, b < 256 := by
  induction l with
  | nil => simp [utf8Encode]
  | cons c rest ih =>
    intro b hb
    simp only [utf8Encode, List.mem_append] at hb
    rcases hb with hb | hb
    · exact utf8EncodeScalar_mem_lt c (hl c (by simp)) b hb
    · exact ih (fun a ha => hl a (by simp [ha])) b hb

theorem utf8DecodeAux_utf8Encode (l : List Nat) (hl : ∀ c ∈ l, c < 1114112) :
    ∀ fuel, (utf8Encode l).length ≤ fuel → utf8DecodeAux fuel (utf8Encode l) = l := by
  induction l with
  | nil => intro fuel _; cases fuel <;> rfl
  | cons c rest ih =>
    intro fuel hfuel
    have hc := hl c (by simp)
    have ihr := ih fun a ha => hl a (by simp [ha])
    simp only [utf8Encode] at hfuel ⊢
    by_cases h1 : c < 128
    · rw [utf8EncodeScalar, if_pos h1] at hfuel ⊢
      simp only [List.cons_append, List.nil_append, List.length_cons] at hfuel ⊢
      cases fuel with
      | zero => omega
      | succ f =>
        unfold utf8DecodeAux
        rw [if_pos h1, ihr f (by omega)]
    · by_cases h2 : c < 2048
      · rw [utf8EncodeScalar, if_neg h1, if_pos h2] at hfuel ⊢
        simp only [List.cons_append, List.nil_append, List.length_cons] at hfuel ⊢
        cases fuel with
        | zero => omega
        | succ f =>
          unfold utf8DecodeAux
          rw [if_neg (by omega), if_pos (by omega), if_neg (by simp)]
          simp only [List.getD_cons_zero, List.drop_succ_cons, List.drop_zero]
          have hval : (192 + c / 64 - 192) * 64 + (128 + c % 64 - 128) = c := by omega
          rw [hval, ihr f (by omega)]
      · by_cases h3 : c < 65536
        · rw [utf8EncodeScalar, if_neg h1, if_neg h2, if_pos h3] at hfuel ⊢
          simp only [List.cons_append, List.nil_append, List.length_cons] at hfuel ⊢
          cases fuel with
          | zero => omega
          | succ f =>
            unfold utf8DecodeAux
            rw [if_neg (by omega), if_neg (by omega), if_pos (by omega),
              if_neg (by simp)]
            simp only [List.getD_cons_zero, List.getD_cons_succ, List.drop_succ_cons,
              List.drop_zero]
            have hval : (224 + c / 4096 - 224) * 4096 + (128 + c / 64 % 64 - 128) * 64 +
                (128 + c % 64 - 128) = c := by omega
            rw [hval, ihr f (by omega)]
        · rw [utf8EncodeScalar, if_neg h1, if_neg h2, if_neg h3] at hfuel ⊢
          simp only [List.cons_append, List.nil_append, List.length_cons] at hfuel ⊢
          cases fuel with
          | zero => omega
          | succ f =>
            unfold utf8DecodeAux
            rw [if_neg (by omega), if_neg (by omega), if_neg (by omega),
              if_neg (by simp)]
            simp only [List.getD_cons_zero, List.getD_cons_succ, List.drop_succ_cons,
              List.drop_zero]
            have hval : (240 + c / 262144 - 240) * 262144 + (128 + c / 4096 % 64 - 128) * 4096 +
                (128 + c / 64 % 64 - 128) * 64 + (128 + c % 64 - 128) = c := by omega
            rw [hval, ihr f (by omega)]

theorem utf8Decode_utf8Encode (l : List Nat) (hl : ∀ c ∈ l, c < 1114112) :
    utf8Decode (utf8Encode l) = l :=
  utf8DecodeAux_utf8Encode l hl _ le_rfl

/-! ## Helper lemmas: the token codec pipeline -/

theorem tokenDecode_roundtrip (key data : List Nat) (hkey : ∀ c ∈ key, c < 65536)
    (hdata : ∀ c ∈ data, c < 65536) :
    xorCrypt key 0 (utf8Decode (fromBase64Url (toBase64Url (utf8Encode (xorCrypt key 0 data))))) =
      data := by
  have hpow : (2 : Nat) ^ 16 = 65536 := by norm_num
  have hkey' : ∀ c ∈ key, c < 2 ^ 16 := by
    intro c hc
    have := hkey c hc
    omega
  have hdata' : ∀ c ∈ data, c < 2 ^ 16 := by
    intro c hc
    have := hdata c hc
    omega
  have hx : ∀ c ∈ xorCrypt key 0 data, c < 1114112 := by
    intro c hc
    have := xorCrypt_mem_lt key 16 hkey' data hdata' 0 c hc
    norm_num at this
    omega
  have hbytes : ∀ b ∈ utf8Encode (xorCrypt key 0 data), b < 256 := utf8Encode_mem_lt _ hx
  rw [fromBase64Url_toBase64Url _ hbytes, utf8Decode_utf8Encode _ hx, xorCrypt_xorCrypt]

/-! ## Helper lemmas: encodeURIComponent and token characters -/

theorem pctBytes_mem (l : List Nat) (hl : ∀ b ∈ l, b < 256) :
    ∀ c ∈ pctBytes l, c ≠ 10 ∧ c < 128 := by
  induction l with
  | nil => simp [pctBytes]
  | cons b rest ih =>
    intro c hc
    have hb := hl b (by simp)
    simp only [pctBytes, pctByte, List.cons_append, List.nil_append, List.mem_cons] at hc
    rcases hc with rfl | rfl | rfl | hc
    · omega
    · unfold hexUpper
      have : b / 16 < 16 := by omega
      split <;> omega
    · unfold hexUpper
      have : b % 16 < 16 := by omega
      split <;> omega
    · exact ih (fun a ha => hl a (by simp [ha])) c hc

theorem isUnreservedUC_props (c : Nat) (h : isUnreservedUC c = true) : c ≠ 10 ∧ c < 128 := by
  unfold isUnreservedUC at h
  simp only [Bool.or_eq_true, decide_eq_true_eq, Bool.and_eq_true] at h
  omega

theorem encodeURIComponent_mem (l : List Nat) (hl : ∀ c ∈ l, c < 1114112) :
    ∀ c ∈ encodeURIComponent l, c ≠ 10 ∧ c < 128 := by
  induction l with
  | nil => simp [encodeURIComponent]
  | cons c rest ih =>
    intro x hx
    simp only [encodeURIComponent, List.mem_append] at hx
    rcases hx with hx | hx
    · by_cases hu : isUnreservedUC c = true
      · rw [if_pos hu] at hx
        simp at hx
        subst hx
        exact isUnreservedUC_props _ hu
      · rw [if_neg hu] at hx
        exact pctBytes_mem _ (utf8EncodeScalar_mem_lt c (hl c (by simp))) x hx
    · exact ih (fun a ha => hl a (by simp [ha])) x hx

theorem generateToken_mem (key url : List Nat) (bucket : Nat)
    (hkey : ∀ c ∈ key, c < 65536) (hurl : ∀ c ∈ url, c < 65536) :
    ∀ c ∈ generateToken key url bucket, c ≠ 10 ∧ c < 128 := by
  have hpow : (2 : Nat) ^ 16 = 65536 := by norm_num
  have hkey' : ∀ c ∈ key, c < 2 ^ 16 := by
    intro c hc
    have := hkey c hc
    omega
  have hdata : ∀ c ∈ url ++ 58 :: natToString bucket, c < 2 ^ 16 := by
    intro c hc
    simp only [List.mem_append, List.mem_cons] at hc
    rcases hc with hc | rfl | hc
    · have := hurl c hc
      omega
    · omega
    · have := natToString_mem bucket c hc
      omega
  have hx : ∀ c ∈ xorCrypt key 0 (url ++ 58 :: natToString bucket), c < 1114112 := by
    intro c hc
    have := xorCrypt_mem_lt key 16 hkey' _ hdata 0 c hc
    omega
  unfold generateToken
  exact toBase64Url_mem _ (utf8Encode_mem_lt _ hx)

theorem mem_basePathOf (pathname : List Nat) (c : Nat) (h : c ∈ basePathOf pathname) :
    c ∈ pathname := by
  unfold basePathOf at h
  rw [List.mem_reverse] at h
  have := (List.dropWhile_sublist (l := pathname.reverse) (p := fun c => c != 47)).mem h
  rwa [List.mem_reverse] at this

/-! ## Helper lemmas: verifying a freshly generated token -/

theorem verifyToken_generateToken_payload (key url : List Nat) (b : Nat)
    (hkey : ∀ c ∈ key, c < 128) (hurl : ∀ c ∈ url, c < 128) :
    xorCrypt key 0 (utf8Decode (fromBase64Url (generateToken key url b))) =
      url ++ 58 :: natToString b := by
  unfold generateToken
  apply tokenDecode_roundtrip
  · intro c hc
    have := hkey c hc
    omega
  · intro c hc
    simp only [List.mem_append, List.mem_cons] at hc
    rcases hc with hc | rfl | hc
    · have := hurl c hc
      omega
    · omega
    · have := natToString_mem b c hc
      omega

theorem verifyToken_generateToken_eval (key url : List Nat) (b cur : Nat)
    (hkey : ∀ c ∈ key, c < 128) (hurl : ∀ c ∈ url, c < 128) (hns : 58 ∉ url) :
    verifyToken key (generateToken key url b) url cur =
      decide ((Int.ofNat cur - Int.ofNat b).natAbs ≤ 5) := by
  have hdec := verifyToken_generateToken_payload key url b hkey hurl
  simp only [verifyToken]
  rw [hdec]
  have hnd : 58 ∉ natToString b := by
    intro hm
    have := natToString_mem b 58 hm
    omega
  rw [jsSplit_append_sep 58 url _ hns, jsSplit_no_sep 58 _ hnd]
  simp only [List.headD, List.get?, jsParseIntOpt, jsParseInt_natToString, beq_self_eq_true,
    Bool.true_and]
  rfl

theorem verifyToken_generateToken_colon (key url : List Nat) (b cur : Nat)
    (hkey : ∀ c ∈ key, c < 128) (hurl : ∀ c ∈ url, c < 128) (hns : 58 ∈ url) :
    verifyToken key (generateToken key url b) url cur = false := by
  have hdec := verifyToken_generateToken_payload key url b hkey hurl
  simp only [verifyToken]
  rw [hdec]
  have hstop : ∃ a ∈ url, (a != 58) = false := ⟨58, hns, by simp⟩
  have ht : (jsSplit 58 (url ++ 58 :: natToString b)).headD [] =
      url.takeWhile fun c => c != 58 := by
    rw [jsSplit_headD]
    exact takeWhile_append_stop _ url _ hstop
  have hlt := length_takeWhile_lt (fun c => c != 58) url hstop
  have hneq : (url.takeWhile fun c => c != 58) ≠ url := by
    intro he
    rw [he] at hlt
    omega
  rw [ht]
  simp [hneq]

/-! ## Claim theorems -/

/-- C1: the claimed token round-trip fails on the code.  `verifyToken`
destructures `original.split(':')` into its FIRST two chunks (not the last
separator, as the spec describes), so for any URL containing a colon — every
`http(s)` URL — the decoded `tokenUrl` is the scheme fragment and the bucket
chunk is non-numeric, and a freshly issued token is rejected in the same
bucket.  The second conjunct shows the identical pipeline succeeds for a
colon-free payload, isolating the split as the culprit. -/
theorem token_roundtrip_split_bug :
    (verifyToken (strUnits "your-api-key-cha")
      (generateToken (strUnits "your-api-key-cha") (strUnits "https://origin.test/live/seg1.ts") 5)
      (strUnits "https://origin.test/live/seg1.ts") 5 = false) ∧
    (verifyToken (strUnits "your-api-key-cha")
      (generateToken (strUnits "your-api-key-cha") (strUnits "seg1.ts") 5)
      (strUnits "seg1.ts") 5 = true) := by decide

/-- C2: the URL resolver maps the four reference shapes against base
`https://cdn.example.com/live/chan1/` exactly as the specification's table
states, in priority order. -/
theorem resolveUrl_table :
    (resolveUrl (strUnits "seg1.ts")
      (parseHttpUrl (strUnits "https://cdn.example.com/live/chan1/"))
      (basePathOf (parseHttpUrl (strUnits "https://cdn.example.com/live/chan1/")).pathname) =
      strUnits "https://cdn.example.com/live/chan1/seg1.ts") ∧
    (resolveUrl (strUnits "/abs/seg2.ts")
      (parseHttpUrl (strUnits "https://cdn.example.com/live/chan1/"))
      (basePathOf (parseHttpUrl (strUnits "https://cdn.example.com/live/chan1/")).pathname) =
      strUnits "https://cdn.example.com/abs/seg2.ts") ∧
    (resolveUrl (strUnits "//other.cdn.com/seg3.ts")
      (parseHttpUrl (strUnits "https://cdn.example.com/live/chan1/"))
      (basePathOf (parseHttpUrl (strUnits "https://cdn.example.com/live/chan1/")).pathname) =
      strUnits "https://other.cdn.com/seg3.ts") ∧
    (resolveUrl (strUnits "https://full.example.com/seg4.ts")
      (parseHttpUrl (strUnits "https://cdn.example.com/live/chan1/"))
      (basePathOf (parseHttpUrl (strUnits "https://cdn.example.com/live/chan1/")).pathname) =
      strUnits "https://full.example.com/seg4.ts") := by decide

/-- C3: the token-auth handler resolves playlist references against the
URL it requested (`cleanTargetUrl`), ignoring the upstream's post-redirect
final URL.  With a redirect from `a.test` to `b.test`, its rewritten body
carries the `a.test` resolution and not the `b.test` one, while the
simplified revision (`rewriteV3Playlist`, which parses `response.url`)
produces the `b.test` resolution the claim requires. -/
theorem base_from_requested_url_bug :
    (containsSub (encodeURIComponent (strUnits "https://a.test/live/seg1.ts"))
      ((handlerAfterGate [strUnits "https://imshep.vercel.app"] (strUnits "your-api-key-cha") 5
        none (strUnits "https://proxy.test") (strUnits "/api/m3u8-proxy")
        (strUnits "https://a.test/live/master.m3u8") none
        (strUnits "https://a.test/live/master.m3u8")
        (.got ⟨true, 200, some (strUnits "application/vnd.apple.mpegurl"), none, none, none,
          strUnits "https://b.test/stream/master.m3u8", strUnits "#EXTM3U\nseg1.ts"⟩)).body.getD [])
      = true) ∧
    (containsSub (encodeURIComponent (strUnits "https://b.test/stream/seg1.ts"))
      ((handlerAfterGate [strUnits "https://imshep.vercel.app"] (strUnits "your-api-key-cha") 5
        none (strUnits "https://proxy.test") (strUnits "/api/m3u8-proxy")
        (strUnits "https://a.test/live/master.m3u8") none
        (strUnits "https://a.test/live/master.m3u8")
        (.got ⟨true, 200, some (strUnits "application/vnd.apple.mpegurl"), none, none, none,
          strUnits "https://b.test/stream/master.m3u8", strUnits "#EXTM3U\nseg1.ts"⟩)).body.getD [])
      = false) ∧
    (containsSub (encodeURIComponent (strUnits "https://b.test/stream/seg1.ts"))
      (rewriteV3Playlist (strUnits "https://b.test/stream/master.m3u8")
        (strUnits "https://proxy.test") (strUnits "/api/m3u8-proxy")
        (strUnits "#EXTM3U\nseg1.ts")) = true) := by decide

/-- C7: token expiry.  For an ASCII key and URL, a token issued at bucket
`b` is rejected whenever the absolute difference between the verification
bucket and `b` exceeds 5 — in particular at bucket `b + 6`.  (For URLs
containing a colon the verifier rejects at every bucket; for colon-free
URLs the bucket-window check decides.) -/
theorem token_expiry_rejects (key url : List Nat) (b cur : Nat)
    (hkey : ∀ c ∈ key, c < 128) (hurl : ∀ c ∈ url, c < 128)
    (hskew : 5 < (Int.ofNat cur - Int.ofNat b).natAbs) :
    verifyToken key (generateToken key url b) url cur = false := by
  by_cases hns : 58 ∈ url
  · exact verifyToken_generateToken_colon key url b cur hkey hurl hns
  · rw [verifyToken_generateToken_eval key url b cur hkey hurl hns]
    simp only [decide_eq_false_iff_not, not_le]
    omega

/-- Witness for C7 at a concrete input: bucket 5, checked at bucket 11
(`b + ALLOWED_SKEW_BUCKETS + 1`). -/
theorem token_expiry_rejects_witness :
    (∀ c ∈ strUnits "your-api-key-cha", c < 128) ∧
    (∀ c ∈ strUnits "seg1.ts", c < 128) ∧
    5 < (Int.ofNat 11 - Int.ofNat 5).natAbs ∧
    verifyToken (strUnits "your-api-key-cha")
      (generateToken (strUnits "your-api-key-cha") (strUnits "seg1.ts") 5)
      (strUnits "seg1.ts") 11 = false :=
  ⟨by decide, by decide, by decide,
    token_expiry_rejects (strUnits "your-api-key-cha") (strUnits "seg1.ts") 5 11
      (by decide) (by decide) (by decide)⟩

/-- C10: URL-cipher round-trip in the path-based proxy.  For every URL and
key (as sequences of Unicode scalar values), decrypting the encrypted URL
recovers it: the XOR with the repeating key bytes cancels and the base64url
and UTF-8 codecs invert. -/
theorem decryptUrl_encryptUrl (key url : List Nat)
    (hkey : ∀ c ∈ key, c < 1114112) (hurl : ∀ c ∈ url, c < 1114112) :
    decryptUrl key (encryptUrl key url) = url := by
  unfold decryptUrl encryptUrl
  have hkb : ∀ b ∈ utf8Encode key, b < 2 ^ 8 := by
    intro b hb
    have := utf8Encode_mem_lt key hkey b hb
    omega
  have hub : ∀ b ∈ utf8Encode url, b < 2 ^ 8 := by
    intro b hb
    have := utf8Encode_mem_lt url hurl b hb
    omega
  have hx : ∀ b ∈ xorCrypt (utf8Encode key) 0 (utf8Encode url), b < 256 := by
    intro b hb
    have := xorCrypt_mem_lt (utf8Encode key) 8 hkb (utf8Encode url) hub 0 b hb
    omega
  rw [fromBase64Url_toBase64Url _ hx, xorCrypt_xorCrypt, utf8Decode_utf8Encode url hurl]

/-- Witness for C10 at a concrete URL and key. -/
theorem decryptUrl_encryptUrl_witness :
    (∀ c ∈ strUnits "your-api-key-change-this-aaaaaaa", c < 1114112) ∧
    (∀ c ∈ strUnits "https://x.test/a?b=1", c < 1114112) ∧
    decryptUrl (strUnits "your-api-key-change-this-aaaaaaa")
      (encryptUrl (strUnits "your-api-key-change-this-aaaaaaa") (strUnits "https://x.test/a?b=1")) =
      strUnits "https://x.test/a?b=1" :=
  ⟨by decide, by decide,
    decryptUrl_encryptUrl (strUnits "your-api-key-change-this-aaaaaaa")
      (strUnits "https://x.test/a?b=1") (by decide) (by decide)⟩

/-- C6: authentication gate before fetch.  For every non-OPTIONS request
carrying a (nonempty) url parameter whose token is missing, empty, or fails
verification, the gate returns the 401 JSON early response carrying the
CORS headers, and never the `proceed` outcome that performs the upstream
fetch. -/
theorem auth_gate_401_no_fetch (allowed : List (List Nat)) (key : List Nat) (bucket : Nat)
    (method : List Nat) (origin : Option (List Nat)) (tokenParam : Option (List Nat))
    (u : List Nat) (hmethod : method ≠ strUnits "OPTIONS") (hu : u ≠ [])
    (htok : tokenParam.getD [] = [] ∨ verifyToken key (tokenParam.getD []) u bucket = false) :
    handlerGate allowed key bucket method origin (some u) tokenParam =
      GateResult.early ⟨401, some (jsonError (strUnits "Invalid or expired token")),
        ("Content-Type", strUnits "application/json") :: getCorsHeaders allowed origin⟩ ∧
    ∀ t, handlerGate allowed key bucket method origin (some u) tokenParam ≠
      GateResult.proceed t := by
  have hm : (method == strUnits "OPTIONS") = false := by
    simp [beq_eq_false_iff_ne, hmethod]
  have hue : (u == []) = false := by
    simp [beq_eq_false_iff_ne, hu]
  have hgate : handlerGate allowed key bucket method origin (some u) tokenParam =
      GateResult.early ⟨401, some (jsonError (strUnits "Invalid or expired token")),
        ("Content-Type", strUnits "application/json") :: getCorsHeaders allowed origin⟩ := by
    unfold handlerGate
    rw [hm]
    simp only [Bool.false_eq_true, if_false, Option.getD_some, hue]
    rcases htok with htok | htok
    · rw [htok]
      simp
    · by_cases hte : tokenParam.getD [] = []
      · rw [hte]
        simp
      · have : (tokenParam.getD [] == []) = false := by
          simp [beq_eq_false_iff_ne, hte]
        rw [this, htok]
        simp
  refine ⟨hgate, ?_⟩
  intro t he
  rw [hgate] at he
  exact GateResult.noConfusion he

/-- Witness for C6: a GET request with a well-formed url parameter and a
garbage token is answered 401 and never fetches. -/
theorem auth_gate_401_no_fetch_witness :
    strUnits "GET" ≠ strUnits "OPTIONS" ∧
    strUnits "https://origin.test/live/master.m3u8" ≠ [] ∧
    ((some (strUnits "bogus") : Option (List Nat)).getD [] = [] ∨
      verifyToken (strUnits "your-api-key-cha") ((some (strUnits "bogus")).getD [])
        (strUnits "https://origin.test/live/master.m3u8") 5 = false) ∧
    (handlerGate [strUnits "https://imshep.vercel.app"] (strUnits "your-api-key-cha") 5
        (strUnits "GET") none (some (strUnits "https://origin.test/live/master.m3u8"))
        (some (strUnits "bogus")) =
      GateResult.early ⟨401, some (jsonError (strUnits "Invalid or expired token")),
        ("Content-Type", strUnits "application/json") ::
          getCorsHeaders [strUnits "https://imshep.vercel.app"] none⟩) :=
  ⟨by decide, by decide, by decide,
    (auth_gate_401_no_fetch [strUnits "https://imshep.vercel.app"] (strUnits "your-api-key-cha") 5
      (strUnits "GET") none (some (strUnits "bogus"))
      (strUnits "https://origin.test/live/master.m3u8")
      (by decide) (by decide) (by decide)).1⟩

/-! ## Helper lemmas: comment-line handling -/

theorem listStarts_single_of_head (a : Nat) (l : List Nat) (h : l.head? = some a) :
    listStarts [a] l = true := by
  cases l with
  | nil => simp at h
  | cons c cs =>
    simp only [List.head?] at h
    injection h with h
    simp [listStarts, h]

/-- C8 counterexample: the token-auth handler trims comment lines, so a
`#` line carrying trailing whitespace (and no `URI=` attribute) is NOT
emitted byte-identical. -/
theorem comment_not_byte_identical :
    rewriteV1Line (strUnits "your-api-key-cha") 5
      (parseHttpUrl (strUnits "https://cdn.example.com/live/chan1/")) none
      (strUnits "https://proxy.test") (strUnits "/api/m3u8-proxy")
      (strUnits "#EXTM3U ") = strUnits "#EXTM3U" ∧
    strUnits "#EXTM3U" ≠ strUnits "#EXTM3U " := by decide

/-- C8 amended: `#` lines without a quoted URI pass through the rewriters
unchanged up to whitespace: the token-auth handler emits the trimmed line
(byte-identical exactly when the line carries no surrounding whitespace),
while the path-based proxy handler pushes the original line byte-identical. -/
theorem comment_lines_pass_through (key : List Nat) (bucket : Nat) (base : JsUrl)
    (ref : Option (List Nat)) (uo up : List Nat) (line0 line1 : List Nat)
    (h0 : (jsTrim line0).head? = some 35)
    (h1 : jsTrim line1 = [] ∨ (jsTrim line1).head? = some 35) :
    rewriteV1Line key bucket base ref uo up line0 = jsTrim line0 ∧
    pathRewriteLine key base ref uo line1 = line1 := by
  constructor
  · have hls := listStarts_single_of_head 35 _ h0
    simp only [rewriteV1Line, hls, Bool.or_true, if_true]
  · rcases h1 with h1 | h1
    · have : (jsTrim line1 == []) = true := by simp [h1]
      simp only [pathRewriteLine, this, Bool.true_or, if_true]
    · have hls := listStarts_single_of_head 35 _ h1
      simp only [pathRewriteLine, hls, Bool.or_true, if_true]

/-- Witness for the amended C8 at concrete comment lines. -/
theorem comment_lines_pass_through_witness :
    (jsTrim (strUnits "#EXTM3U ")).head? = some 35 ∧
    (jsTrim (strUnits "#EXT-X-VERSION:3") = [] ∨
      (jsTrim (strUnits "#EXT-X-VERSION:3")).head? = some 35) ∧
    rewriteV1Line (strUnits "your-api-key-cha") 5
      (parseHttpUrl (strUnits "https://cdn.example.com/live/chan1/")) none
      (strUnits "https://proxy.test") (strUnits "/api/m3u8-proxy") (strUnits "#EXTM3U ") =
      jsTrim (strUnits "#EXTM3U ") ∧
    pathRewriteLine (strUnits "your-api-key-cha")
      (parseHttpUrl (strUnits "https://cdn.example.com/live/chan1/")) none
      (strUnits "https://proxy.test") (strUnits "#EXT-X-VERSION:3") =
      strUnits "#EXT-X-VERSION:3" := by
  refine ⟨by decide, by decide, ?_, ?_⟩
  · exact (comment_lines_pass_through (strUnits "your-api-key-cha") 5
      (parseHttpUrl (strUnits "https://cdn.example.com/live/chan1/")) none
      (strUnits "https://proxy.test") (strUnits "/api/m3u8-proxy")
      (strUnits "#EXTM3U ") (strUnits "#EXT-X-VERSION:3") (by decide) (by decide)).1
  · exact (comment_lines_pass_through (strUnits "your-api-key-cha") 5
      (parseHttpUrl (strUnits "https://cdn.example.com/live/chan1/")) none
      (strUnits "https://proxy.test") (strUnits "/api/m3u8-proxy")
      (strUnits "#EXTM3U ") (strUnits "#EXT-X-VERSION:3") (by decide) (by decide)).2

/-! ## Helper lemmas: line-rewrite outputs contain no newline -/

theorem mem_of_mem_jsSplit_chunk (sep : Nat) (l p : List Nat) (hp : p ∈ jsSplit sep l)
    (c : Nat) (hc : c ∈ p) : c ∈ l := by
  induction l generalizing p with
  | nil =>
    simp [jsSplit] at hp
    subst hp
    simp at hc
  | cons x rest ih =>
    by_cases h : x = sep
    · simp only [jsSplit, if_pos h, List.mem_cons] at hp
      rcases hp with rfl | hp'
      · simp at hc
      · exact List.mem_cons_of_mem x (ih p hp' hc)
    · simp only [jsSplit, if_neg h] at hp
      cases hs : jsSplit sep rest with
      | nil => exact absurd hs (jsSplit_ne_nil sep rest)
      | cons hd tl =>
        rw [hs] at hp
        simp only [List.mem_cons] at hp
        rcases hp with rfl | hp'
        · rcases List.mem_cons.mp hc with rfl | hc'
          · simp
          · exact List.mem_cons_of_mem x (ih hd (by rw [hs]; simp) hc')
        · exact List.mem_cons_of_mem x (ih p (by rw [hs]; simp [hp']) hc)

theorem mem_of_mem_takeWhile {α : Type} (p : α → Bool) (l : List α) (c : α)
    (h : c ∈ l.takeWhile p) : c ∈ l := by
  induction l with
  | nil => simp at h
  | cons x rest ih =>
    by_cases hx : p x = true
    · rw [List.takeWhile_cons_of_pos hx] at h
      rcases List.mem_cons.mp h with rfl | h'
      · simp
      · exact List.mem_cons_of_mem x (ih h')
    · rw [List.takeWhile_cons_of_neg (by simp [hx])] at h
      simp at h

theorem mem_of_mem_drop {α : Type} (l : List α) (n : Nat) (c : α) (h : c ∈ l.drop n) :
    c ∈ l := by
  induction l generalizing n with
  | nil => simp at h
  | cons x rest ih =>
    cases n with
    | zero => simpa using h
    | succ m => exact List.mem_cons_of_mem x (ih m h)

theorem v1Resolve_mem (base : JsUrl) (line : List Nat) (c : Nat)
    (h : c ∈ v1Resolve base line) :
    c ∈ line ∨ c ∈ base.protocol ∨ c ∈ base.host ∨ c ∈ base.pathname ∨ c < 128 := by
  unfold v1Resolve at h
  split at h
  · exact Or.inl h
  · split at h
    · simp only [List.append_assoc, List.mem_append] at h
      have hss : ∀ x ∈ strUnits "//", x < 128 := by decide
      rcases h with h | h | h
      · exact Or.inr (Or.inl h)
      · exact Or.inr (Or.inr (Or.inr (Or.inr (hss c h))))
      · rcases h with h | h
        · exact Or.inr (Or.inr (Or.inl h))
        · exact Or.inl h
    · simp only [List.append_assoc, List.mem_append] at h
      have hss : ∀ x ∈ strUnits "//", x < 128 := by decide
      rcases h with h | h | h
      · exact Or.inr (Or.inl h)
      · exact Or.inr (Or.inr (Or.inr (Or.inr (hss c h))))
      · rcases h with h | h | h
        · exact Or.inr (Or.inr (Or.inl h))
        · exact Or.inr (Or.inr (Or.inr (Or.inl (mem_basePathOf base.pathname c h))))
        · exact Or.inl h

theorem withReferer_mem (refererParam : Option (List Nat)) (a : List Nat)
    (href : ∀ r, refererParam = some r → ∀ c ∈ r, c < 1114112) (c : Nat)
    (h : c ∈ withReferer refererParam a) : c ∈ a ∨ c < 128 := by
  unfold withReferer at h
  cases hr : refererParam with
  | none =>
    rw [hr] at h
    exact Or.inl h
  | some r =>
    rw [hr] at h
    simp only [List.append_assoc, List.mem_append] at h
    rcases h with h | h | h | h
    · exact Or.inl h
    · right
      split at h <;> (simp at h; omega)
    · right
      have hss : ∀ x ∈ strUnits "__referer=", x < 128 := by decide
      exact hss c h
    · right
      exact (encodeURIComponent_mem r (href r hr) c h).2

theorem mem_joinSep (sep : Nat) (ps : List (List Nat)) (c : Nat) (h : c ∈ joinSep sep ps) :
    c = sep ∨ ∃ p ∈ ps, c ∈ p := by
  induction ps with
  | nil => simp [joinSep] at h
  | cons x rest ih =>
    cases rest with
    | nil =>
      simp only [joinSep] at h
      exact Or.inr ⟨x, by simp, h⟩
    | cons y tl =>
      have hj : joinSep sep (x :: y :: tl) = x ++ sep :: joinSep sep (y :: tl) := rfl
      rw [hj] at h
      simp only [List.mem_append, List.mem_cons] at h
      rcases h with h | rfl | h
      · exact Or.inr ⟨x, by simp, h⟩
      · exact Or.inl rfl
      · rcases ih h with h' | ⟨p, hp, hc⟩
        · exact Or.inl h'
        · exact Or.inr ⟨p, List.mem_cons_of_mem x hp, hc⟩

theorem mem_parseHttpUrl_pathname (l : List Nat) (c : Nat)
    (h : c ∈ (parseHttpUrl l).pathname) : c ∈ l ∨ c = 47 := by
  simp only [parseHttpUrl] at h
  split at h
  · exact Or.inl (mem_of_mem_drop _ _ _ (mem_of_mem_drop _ _ _ (mem_of_mem_takeWhile _ _ _ h)))
  · simp at h
    exact Or.inr h

theorem mem_generatePath (url : List Nat) (c : Nat) (h : c ∈ generatePath url) :
    c ∈ url ∨ c < 128 := by
  simp only [generatePath] at h
  split at h
  · right
    have hss : ∀ x ∈ strUnits "stream.m3u8", x < 128 := by decide
    exact hss c h
  · rcases mem_joinSep 47 _ c h with rfl | ⟨p, hp, hc⟩
    · right
      omega
    · have hp' := List.mem_of_mem_filter (mem_of_mem_drop _ _ _ hp)
      have hc' := mem_of_mem_jsSplit_chunk 47 _ p hp' c hc
      rcases mem_parseHttpUrl_pathname url c hc' with h' | rfl
      · exact Or.inl h'
      · right
        omega

theorem absUrl_bound (base : JsUrl) (ref : Option (List Nat)) (t : List Nat)
    (ht : ∀ c ∈ t, c < 65536)
    (hpro : ∀ c ∈ base.protocol, c < 65536) (hhost : ∀ c ∈ base.host, c < 65536)
    (hpath : ∀ c ∈ base.pathname, c < 65536)
    (href : ∀ r, ref = some r → ∀ c ∈ r, c < 1114112) :
    ∀ c ∈ withReferer ref (v1Resolve base t), c < 65536 := by
  intro c hc
  rcases withReferer_mem ref _ href c hc with hc' | h128
  · rcases v1Resolve_mem base t c hc' with h | h | h | h | h
    · exact ht c h
    · exact hpro c h
    · exact hhost c h
    · exact hpath c h
    · omega
  · omega

theorem rewriteV1Line_no_newline (key : List Nat) (bucket : Nat) (base : JsUrl)
    (ref : Option (List Nat)) (uo up line0 : List Nat)
    (hkey : ∀ c ∈ key, c < 65536) (hline : ∀ c ∈ line0, c < 65536) (hl10 : 10 ∉ line0)
    (hpro : ∀ c ∈ base.protocol, c < 65536) (hhost : ∀ c ∈ base.host, c < 65536)
    (hpath : ∀ c ∈ base.pathname, c < 65536)
    (href : ∀ r, ref = some r → ∀ c ∈ r, c < 1114112)
    (ho : 10 ∉ uo) (hp : 10 ∉ up) :
    10 ∉ rewriteV1Line key bucket base ref uo up line0 := by
  have htmem : ∀ c ∈ jsTrim line0, c < 65536 := fun c hc =>
    hline c (mem_of_mem_jsTrim c line0 hc)
  have habs := absUrl_bound base ref (jsTrim line0) htmem hpro hhost hpath href
  have habs' : ∀ c ∈ withReferer ref (v1Resolve base (jsTrim line0)), c < 1114112 := by
    intro c hc
    have := habs c hc
    omega
  simp only [rewriteV1Line]
  split
  · intro hm
    exact hl10 (mem_of_mem_jsTrim 10 line0 hm)
  · intro hm
    simp only [List.append_assoc, List.mem_append] at hm
    have hq : ∀ x ∈ strUnits "?url=", x < 128 ∧ x ≠ 10 := by decide
    have ha : ∀ x ∈ strUnits "&token=", x < 128 ∧ x ≠ 10 := by decide
    rcases hm with hm | hm | hm | hm | hm | hm
    · exact ho hm
    · exact hp hm
    · exact (hq 10 hm).2 rfl
    · exact (encodeURIComponent_mem _ habs' 10 hm).1 rfl
    · exact (ha 10 hm).2 rfl
    · exact (generateToken_mem key _ bucket hkey habs 10 hm).1 rfl

theorem pathRewriteLine_no_newline (key : List Nat) (base : JsUrl)
    (ref : Option (List Nat)) (uo line : List Nat)
    (hline : ∀ c ∈ line, c < 65536) (hl10 : 10 ∉ line)
    (hpro : ∀ c ∈ base.protocol, c < 65536) (hhost : ∀ c ∈ base.host, c < 65536)
    (hpath : ∀ c ∈ base.pathname, c < 65536)
    (href : ∀ r, ref = some r → ∀ c ∈ r, c < 1114112)
    (ho : 10 ∉ uo) :
    10 ∉ pathRewriteLine key base ref uo line := by
  have htmem : ∀ c ∈ jsTrim line, c < 65536 := fun c hc =>
    hline c (mem_of_mem_jsTrim c line hc)
  have habs := absUrl_bound base ref (jsTrim line) htmem hpro hhost hpath href
  simp only [pathRewriteLine]
  split
  · exact hl10
  · intro hm
    simp only [createProxyPath, List.append_assoc, List.mem_append] at hm
    have hap : ∀ x ∈ strUnits "/api/proxy/", x < 128 ∧ x ≠ 10 := by decide
    rcases hm with hm | hm | hm
    · exact ho hm
    · exact (hap 10 hm).2 rfl
    · have hgen : ∀ c ∈ generatePath (withReferer ref (v1Resolve base (jsTrim line))),
          c < 1114112 := by
        intro c hc
        rcases mem_generatePath _ c hc with h | h
        · have := habs c h
          omega
        · omega
      exact (encodeURIComponent_mem _ hgen 10 hm).1 rfl

/-- C4: playlist line-count invariant.  For every playlist text (of valid
UTF-16 code units) both playlist rewriters produce exactly as many
newline-separated lines as the input: each line maps to one output line
containing no newline, and joining then splitting restores the count. -/
theorem playlist_line_count (key : List Nat) (bucket : Nat) (base : JsUrl)
    (ref : Option (List Nat)) (uo up text : List Nat)
    (hkey : ∀ c ∈ key, c < 65536) (htext : ∀ c ∈ text, c < 65536)
    (hpro : ∀ c ∈ base.protocol, c < 65536) (hhost : ∀ c ∈ base.host, c < 65536)
    (hpath : ∀ c ∈ base.pathname, c < 65536)
    (href : ∀ r, ref = some r → ∀ c ∈ r, c < 1114112)
    (ho : 10 ∉ uo) (hp : 10 ∉ up) :
    (jsSplit 10 (rewriteV1Playlist key bucket base ref uo up text)).length =
      (jsSplit 10 text).length ∧
    (jsSplit 10 (pathRewritePlaylist key base ref uo text)).length =
      (jsSplit 10 text).length := by
  constructor
  · unfold rewriteV1Playlist
    rw [jsSplit_joinSep 10 _ (by
        simp only [ne_eq, List.map_eq_nil_iff]
        exact jsSplit_ne_nil 10 text) (by
        intro p hpp
        rw [List.mem_map] at hpp
        obtain ⟨q, hq, rfl⟩ := hpp
        exact rewriteV1Line_no_newline key bucket base ref uo up q hkey
          (fun c hc => htext c (mem_of_mem_jsSplit_chunk 10 text q hq c hc))
          (not_mem_of_mem_jsSplit 10 text q hq) hpro hhost hpath href ho hp)]
    rw [List.length_map]
  · unfold pathRewritePlaylist
    rw [jsSplit_joinSep 10 _ (by
        simp only [ne_eq, List.map_eq_nil_iff]
        exact jsSplit_ne_nil 10 text) (by
        intro p hpp
        rw [List.mem_map] at hpp
        obtain ⟨q, hq, rfl⟩ := hpp
        exact pathRewriteLine_no_newline key base ref uo q
          (fun c hc => htext c (mem_of_mem_jsSplit_chunk 10 text q hq c hc))
          (not_mem_of_mem_jsSplit 10 text q hq) hpro hhost hpath href ho)]
    rw [List.length_map]

/-- Witness for C4 on a concrete three-line playlist with a referer
annotation. -/
theorem playlist_line_count_witness :
    (jsSplit 10 (rewriteV1Playlist (strUnits "your-api-key-cha") 5
      (parseHttpUrl (strUnits "https://cdn.example.com/live/chan1/index.m3u8"))
      (some (strUnits "https://ref.test/")) (strUnits "https://proxy.test")
      (strUnits "/api/m3u8-proxy")
      (strUnits "#EXTM3U\n#EXTINF:4.0,\nseg1.ts"))).length =
      (jsSplit 10 (strUnits "#EXTM3U\n#EXTINF:4.0,\nseg1.ts")).length ∧
    (jsSplit 10 (pathRewritePlaylist (strUnits "your-api-key-cha")
      (parseHttpUrl (strUnits "https://cdn.example.com/live/chan1/index.m3u8"))
      (some (strUnits "https://ref.test/")) (strUnits "https://proxy.test")
      (strUnits "#EXTM3U\n#EXTINF:4.0,\nseg1.ts"))).length =
      (jsSplit 10 (strUnits "#EXTM3U\n#EXTINF:4.0,\nseg1.ts")).length := by
  have h := playlist_line_count (strUnits "your-api-key-cha") 5
    (parseHttpUrl (strUnits "https://cdn.example.com/live/chan1/index.m3u8"))
    (some (strUnits "https://ref.test/")) (strUnits "https://proxy.test")
    (strUnits "/api/m3u8-proxy") (strUnits "#EXTM3U\n#EXTINF:4.0,\nseg1.ts")
    (by decide) (by decide) (by decide) (by decide) (by decide)
    (by intro r hr; injection hr with hr; subst hr; decide) (by decide) (by decide)
  exact h

/-! ## Helper lemmas: the quoted-URI scanner -/

theorem replaceURIAllAux_fuel (f : List Nat → List Nat) :
    ∀ fuel l, l.length ≤ fuel → replaceURIAllAux f fuel l = replaceURIAll f l := by
  intro fuel
  induction fuel using Nat.strong_induction_on with
  | _ fuel ih =>
    intro l hl
    cases l with
    | nil =>
      cases fuel with
      | zero => rfl
      | succ g => rfl
    | cons c rest =>
      cases fuel with
      | zero => simp at hl
      | succ g =>
        have hg : rest.length ≤ g := by
          simp only [List.length_cons] at hl
          omega
        unfold replaceURIAll
        simp only [List.length_cons]
        unfold replaceURIAllAux
        by_cases hstart : listStarts (strUnits "URI=\"") (c :: rest) = true
        · rw [if_pos hstart, if_pos hstart]
          have hX : ((((c :: rest).drop 5).drop
              (((c :: rest).drop 5).takeWhile fun x => x != 34).length).drop 1).length ≤
              rest.length := by
            simp only [List.length_drop, List.length_cons]
            omega
          by_cases hcap : ((((c :: rest).drop 5).takeWhile fun x => x != 34) != [] &&
              (((c :: rest).drop 5).drop
                (((c :: rest).drop 5).takeWhile fun x => x != 34).length).head? ==
                some 34) = true
          · simp only [hcap, if_true]
            rw [ih g (by omega) _ (le_trans hX hg), ih rest.length (by omega) _ hX]
          · simp only [Bool.not_eq_true] at hcap
            simp only [hcap, Bool.false_eq_true, if_false]
            rw [ih g (by omega) rest hg, ih rest.length (by omega) rest le_rfl]
        · simp only [Bool.not_eq_true] at hstart
          rw [if_neg (by simp [hstart]), if_neg (by simp [hstart])]
          rw [ih g (by omega) rest hg, ih rest.length (by omega) rest le_rfl]

theorem replaceURIAll_cons_nomatch (f : List Nat → List Nat) (c : Nat) (rest : List Nat)
    (h : listStarts (strUnits "URI=\"") (c :: rest) = false) :
    replaceURIAll f (c :: rest) = c :: replaceURIAll f rest := by
  conv_lhs => unfold replaceURIAll
  simp only [List.length_cons]
  conv_lhs => unfold replaceURIAllAux
  rw [if_neg (by simp [h])]
  rfl

theorem replaceURIAll_append_noU (f : List Nat → List Nat) (pre tail : List Nat)
    (hpre : 85 ∉ pre) :
    replaceURIAll f (pre ++ tail) = pre ++ replaceURIAll f tail := by
  induction pre with
  | nil => simp
  | cons c rest ih =>
    have hc : c ≠ 85 := fun e => hpre (by simp [e])
    have hr : 85 ∉ rest := fun e => hpre (by simp [e])
    have hfalse : listStarts (strUnits "URI=\"") (c :: (rest ++ tail)) = false := by
      have : strUnits "URI=\"" = 85 :: strUnits "RI=\"" := rfl
      rw [this]
      simp only [listStarts, Bool.and_eq_false_iff]
      left
      simp [beq_eq_false_iff_ne]
      omega
    rw [List.cons_append, replaceURIAll_cons_nomatch f c _ hfalse, ih hr, List.cons_append]

theorem replaceURIAll_id_noU (f : List Nat → List Nat) (l : List Nat) (h : 85 ∉ l) :
    replaceURIAll f l = l := by
  have := replaceURIAll_append_noU f l [] h
  have h0 : replaceURIAll f [] = [] := rfl
  rw [h0] at this
  simpa using this

theorem replaceURIAll_match (f : List Nat → List Nat) (u suf : List Nat)
    (hu : u ≠ []) (h34 : 34 ∉ u) :
    replaceURIAll f (strUnits "URI=\"" ++ u ++ 34 :: suf) =
      strUnits "URI=\"" ++ f u ++ 34 :: replaceURIAll f suf := by
  have hUvals : strUnits "URI=\"" = [85, 82, 73, 61, 34] := rfl
  have hcap : (u ++ 34 :: suf).takeWhile (fun x => x != 34) = u := by
    rw [takeWhile_append_all _ u _ (by
      intro a ha
      simp only [bne_iff_ne, ne_eq]
      intro he
      exact h34 (he ▸ ha))]
    rw [List.takeWhile_cons_of_neg (by simp)]
    simp
  have hrem : (u ++ 34 :: suf).drop u.length = 34 :: suf := List.drop_left u (34 :: suf)
  have hform : strUnits "URI=\"" ++ u ++ 34 :: suf =
      85 :: 82 :: 73 :: 61 :: 34 :: (u ++ 34 :: suf) := by
    rw [hUvals]
    simp
  have hstart : listStarts (strUnits "URI=\"")
      (85 :: 82 :: 73 :: 61 :: 34 :: (u ++ 34 :: suf)) = true := by
    rw [hUvals]
    simp [listStarts]
  rw [hform]
  conv_lhs => unfold replaceURIAll
  simp only [List.length_cons]
  conv_lhs => unfold replaceURIAllAux
  rw [if_pos hstart]
  simp only [List.drop_succ_cons, List.drop_zero]
  rw [hcap, hrem]
  rw [if_pos (by simp [bne_iff_ne, hu])]
  rw [show (34 :: suf).drop 1 = suf from rfl]
  rw [replaceURIAllAux_fuel f _ suf (by
    simp only [List.length_append, List.length_cons]
    omega)]
  simp [List.append_assoc]

theorem listStarts_append_self (pat y : List Nat) : listStarts pat (pat ++ y) = true := by
  induction pat with
  | nil => rfl
  | cons p ps ih => simp [listStarts, ih]

theorem containsSub_of_append (pat x y : List Nat) :
    containsSub pat (x ++ pat ++ y) = true := by
  induction x with
  | nil =>
    simp only [List.nil_append]
    have hls := listStarts_append_self pat y
    cases hpy : pat ++ y with
    | nil =>
      have hp : pat = [] := (List.append_eq_nil.mp hpy).1
      subst hp
      rfl
    | cons c cs =>
      rw [hpy] at hls
      simp [containsSub, hls]
  | cons c x' ih =>
    simp only [List.cons_append, containsSub, List.append_eq, ih, Bool.or_true]

/-- C5 counterexample: the revision that rewrites quoted URIs mints no
token (no `&token=` in the replacement), and the token-minting revision
passes tag lines through without touching the quoted URI at all.  So no
handler performs the claimed resolve-plus-token rewrite. -/
theorem quoted_uri_no_token :
    (rewriteV3Line (parseHttpUrl (strUnits "https://cdn.example.com/live/chan1/"))
      (basePathOf (parseHttpUrl (strUnits "https://cdn.example.com/live/chan1/")).pathname)
      (strUnits "https://proxy.test") (strUnits "/api/m3u8-proxy")
      (strUnits "#EXT-X-KEY:METHOD=AES-128,URI=\"key.key\"") =
      strUnits "#EXT-X-KEY:METHOD=AES-128,URI=\"https://proxy.test/api/m3u8-proxy?url=https%3A%2F%2Fcdn.example.com%2Flive%2Fchan1%2Fkey.key\"") ∧
    (containsSub (strUnits "&token=")
      (rewriteV3Line (parseHttpUrl (strUnits "https://cdn.example.com/live/chan1/"))
        (basePathOf (parseHttpUrl (strUnits "https://cdn.example.com/live/chan1/")).pathname)
        (strUnits "https://proxy.test") (strUnits "/api/m3u8-proxy")
        (strUnits "#EXT-X-KEY:METHOD=AES-128,URI=\"key.key\"")) = false) ∧
    (rewriteV1Line (strUnits "your-api-key-cha") 5
      (parseHttpUrl (strUnits "https://cdn.example.com/live/chan1/")) none
      (strUnits "https://proxy.test") (strUnits "/api/m3u8-proxy")
      (strUnits "#EXT-X-KEY:METHOD=AES-128,URI=\"key.key\"") =
      strUnits "#EXT-X-KEY:METHOD=AES-128,URI=\"key.key\"") := by decide

/-- C5 amended: the simplified-revision rewriter replaces exactly the
quoted URI of a (whitespace-clean) `#EXT` tag line with the proxy URL
carrying the URL-encoded resolved target — with no token — and leaves
everything before and after the quoted portion unchanged. -/
theorem quoted_uri_rewrite (base : JsUrl) (basePath uo up : List Nat)
    (pre u suf : List Nat) (hpre : 85 ∉ pre) (hu : u ≠ []) (h34 : 34 ∉ u) (hsuf : 85 ∉ suf)
    (hws : ∀ a, suf.getLast? = some a → isJsWhitespace a = false) :
    rewriteV3Line base basePath uo up
      (strUnits "#EXT" ++ pre ++ strUnits "URI=\"" ++ u ++ 34 :: suf) =
      strUnits "#EXT" ++ pre ++ strUnits "URI=\"" ++
        (uo ++ up ++ strUnits "?url=" ++ encodeURIComponent (resolveUrl u base basePath)) ++
        34 :: suf := by
  have hform : strUnits "#EXT" ++ pre ++ strUnits "URI=\"" ++ u ++ 34 :: suf =
      35 :: (([69, 88, 84] ++ pre) ++ strUnits "URI=\"" ++ u ++ 34 :: suf) := rfl
  have hhead : ∀ a, (strUnits "#EXT" ++ pre ++ strUnits "URI=\"" ++ u ++ 34 :: suf).head? =
      some a → isJsWhitespace a = false := by
    intro a ha
    rw [hform] at ha
    simp only [List.head?] at ha
    injection ha with ha
    subst ha
    decide
  have hlast : ∀ a, (strUnits "#EXT" ++ pre ++ strUnits "URI=\"" ++ u ++ 34 :: suf).getLast? =
      some a → isJsWhitespace a = false := by
    intro a ha
    have hsplit : strUnits "#EXT" ++ pre ++ strUnits "URI=\"" ++ u ++ 34 :: suf =
        (strUnits "#EXT" ++ pre ++ strUnits "URI=\"" ++ u) ++ (34 :: suf) := by
      simp [List.append_assoc]
    rw [hsplit, List.getLast?_append] at ha
    cases hsuf0 : suf with
    | nil =>
      subst hsuf0
      simp [List.getLast?] at ha
      subst ha
      decide
    | cons s ss =>
      subst hsuf0
      rw [List.getLast?_cons_cons] at ha
      cases hsl : (s :: ss).getLast? with
      | none => simp [List.getLast?] at hsl
      | some b =>
        rw [hsl] at ha
        simp only [Option.or_some] at ha
        injection ha with ha
        subst ha
        exact hws b hsl
  have htrim := jsTrim_eq_self _ hhead hlast
  have hEXT : listStarts (strUnits "#EXT")
      (strUnits "#EXT" ++ pre ++ strUnits "URI=\"" ++ u ++ 34 :: suf) = true := by
    have hsp : strUnits "#EXT" ++ pre ++ strUnits "URI=\"" ++ u ++ 34 :: suf =
        strUnits "#EXT" ++ (pre ++ strUnits "URI=\"" ++ u ++ 34 :: suf) := by
      simp [List.append_assoc]
    rw [hsp]
    exact listStarts_append_self _ _
  have hcont : containsSub (strUnits "URI=\"")
      (strUnits "#EXT" ++ pre ++ strUnits "URI=\"" ++ u ++ 34 :: suf) = true := by
    have hsp : strUnits "#EXT" ++ pre ++ strUnits "URI=\"" ++ u ++ 34 :: suf =
        (strUnits "#EXT" ++ pre) ++ strUnits "URI=\"" ++ (u ++ 34 :: suf) := by
      simp [List.append_assoc]
    rw [hsp]
    exact containsSub_of_append _ _ _
  have h85 : 85 ∉ strUnits "#EXT" ++ pre := by
    intro hm
    rcases List.mem_append.mp hm with hm | hm
    · revert hm
      decide
    · exact hpre hm
  simp only [rewriteV3Line]
  rw [htrim]
  rw [if_pos (by rw [hEXT]; simp)]
  rw [if_pos hcont]
  have hsp : strUnits "#EXT" ++ pre ++ strUnits "URI=\"" ++ u ++ 34 :: suf =
      (strUnits "#EXT" ++ pre) ++ (strUnits "URI=\"" ++ u ++ 34 :: suf) := by
    simp [List.append_assoc]
  rw [hsp, replaceURIAll_append_noU _ _ _ h85, replaceURIAll_match _ u suf hu h34,
    replaceURIAll_id_noU _ suf hsuf]
  simp [List.append_assoc]

/-- Witness for the amended C5 on a concrete encryption-key tag line. -/
theorem quoted_uri_rewrite_witness :
    (85 ∉ strUnits "-X-KEY:METHOD=AES-128,") ∧ strUnits "key.key" ≠ [] ∧
    (34 ∉ strUnits "key.key") ∧ (85 ∉ strUnits ",IV=0x10") ∧
    rewriteV3Line (parseHttpUrl (strUnits "https://cdn.example.com/live/chan1/"))
      (basePathOf (parseHttpUrl (strUnits "https://cdn.example.com/live/chan1/")).pathname)
      (strUnits "https://proxy.test") (strUnits "/api/m3u8-proxy")
      (strUnits "#EXT" ++ strUnits "-X-KEY:METHOD=AES-128," ++ strUnits "URI=\"" ++
        strUnits "key.key" ++ 34 :: strUnits ",IV=0x10") =
      strUnits "#EXT" ++ strUnits "-X-KEY:METHOD=AES-128," ++ strUnits "URI=\"" ++
        (strUnits "https://proxy.test" ++ strUnits "/api/m3u8-proxy" ++ strUnits "?url=" ++
          encodeURIComponent (resolveUrl (strUnits "key.key")
            (parseHttpUrl (strUnits "https://cdn.example.com/live/chan1/"))
            (basePathOf (parseHttpUrl
              (strUnits "https://cdn.example.com/live/chan1/")).pathname))) ++
        34 :: strUnits ",IV=0x10" :=
  ⟨by decide, by decide, by decide, by decide,
    quoted_uri_rewrite (parseHttpUrl (strUnits "https://cdn.example.com/live/chan1/"))
      (basePathOf (parseHttpUrl (strUnits "https://cdn.example.com/live/chan1/")).pathname)
      (strUnits "https://proxy.test") (strUnits "/api/m3u8-proxy")
      (strUnits "-X-KEY:METHOD=AES-128,") (strUnits "key.key") (strUnits ",IV=0x10")
      (by decide) (by decide) (by decide) (by decide) (by decide)⟩

/-! ## Helper lemmas: CORS headers on every response path -/

theorem lookup_cors_self (allowed : List (List Nat)) (origin : Option (List Nat)) :
    ∀ p ∈ getCorsHeaders allowed origin,
      lookupHeader p.1 (getCorsHeaders allowed origin) = some p.2 := by
  intro p hp
  simp only [getCorsHeaders, List.mem_cons, List.not_mem_nil, or_false] at hp
  rcases hp with rfl | rfl | rfl | rfl | rfl <;>
    simp [lookupHeader, List.lookup, getCorsHeaders]

theorem lookup_cors_acao (allowed : List (List Nat)) (origin : Option (List Nat)) :
    lookupHeader "Access-Control-Allow-Origin" (getCorsHeaders allowed origin) =
      some (match origin with
        | some o => if o != [] && allowed.contains o then o else allowed.headD []
        | none => allowed.headD []) := by
  cases origin <;> simp [lookupHeader, List.lookup, getCorsHeaders]

theorem mem_getCorsHeaders_key (allowed : List (List Nat)) (origin : Option (List Nat))
    (p : String × List Nat) (hp : p ∈ getCorsHeaders allowed origin) :
    p.1 = "Access-Control-Allow-Origin" ∨ p.1 = "Access-Control-Allow-Methods" ∨
    p.1 = "Access-Control-Allow-Headers" ∨ p.1 = "Access-Control-Max-Age" ∨
    p.1 = "Access-Control-Expose-Headers" := by
  simp only [getCorsHeaders, List.mem_cons, List.not_mem_nil, or_false] at hp
  rcases hp with rfl | rfl | rfl | rfl | rfl <;> simp

theorem lookup_append_skip (k : String) (extra h : List (String × List Nat))
    (hk : ∀ q ∈ extra, q.1 ≠ k) :
    lookupHeader k (extra ++ h) = lookupHeader k h := by
  induction extra with
  | nil => rfl
  | cons q rest ih =>
    have hq : q.1 ≠ k := hk q (by simp)
    have hb : (k == q.1) = false := by
      simp only [beq_eq_false_iff_ne, ne_eq]
      exact fun e => hq e.symm
    obtain ⟨qk, qv⟩ := q
    simp only [List.cons_append, lookupHeader, List.lookup, hb]
    exact ih fun r hr => hk r (by simp [hr])

/-- Shape of the headers every handler response carries: some extra
entries whose keys are drawn from the content/cache header names, followed
by the computed CORS headers. -/
def ExtraKeys (e : List (String × List Nat)) : Prop :=
  ∀ q ∈ e, q.1 = "Content-Type" ∨ q.1 = "Cache-Control" ∨ q.1 = "Content-Length" ∨
    q.1 = "Content-Range" ∨ q.1 = "Accept-Ranges"

theorem setIfNonempty_shape (k : String) (o : Option (List Nat))
    (h : List (String × List Nat)) (cors : List (String × List Nat))
    (hk : k = "Content-Type" ∨ k = "Cache-Control" ∨ k = "Content-Length" ∨
      k = "Content-Range" ∨ k = "Accept-Ranges")
    (hs : ∃ e, h = e ++ cors ∧ ExtraKeys e) :
    ∃ e, setIfNonempty k o h = e ++ cors ∧ ExtraKeys e := by
  obtain ⟨e, he, hek⟩ := hs
  simp only [setIfNonempty, setHeader]
  split
  · refine ⟨(k, o.getD []) :: e, by rw [he]; simp, ?_⟩
    intro q hq
    rcases List.mem_cons.mp hq with rfl | hq'
    · exact hk
    · exact hek q hq'
  · exact ⟨e, he, hek⟩

theorem handlerRespond_shape (allowed : List (List Nat)) (key : List Nat) (bucket : Nat)
    (method : List Nat) (origin urlParam tokenParam refererParam : Option (List Nat))
    (uo up cleanTargetUrl : List Nat) (fetch : FetchOutcome) :
    ∃ e, (handlerRespond allowed key bucket method origin urlParam tokenParam
        uo up refererParam cleanTargetUrl fetch).headers =
      e ++ getCorsHeaders allowed origin ∧ ExtraKeys e := by
  have hext0 : ExtraKeys ([] : List (String × List Nat)) := by
    intro q hq
    simp at hq
  have hctjson : ExtraKeys [("Content-Type", strUnits "application/json")] := by
    intro q hq
    simp only [List.mem_singleton] at hq
    subst hq
    simp
  unfold handlerRespond handlerGate handlerAfterGate
  by_cases h1 : (method == strUnits "OPTIONS") = true
  · rw [if_pos h1]
    exact ⟨[], by simp, hext0⟩
  · rw [if_neg h1]
    simp only []
    by_cases h2 : (urlParam.getD [] == []) = true
    · rw [if_pos h2]
      exact ⟨[("Content-Type", strUnits "application/json")], by simp, hctjson⟩
    · rw [if_neg h2]
      by_cases h3 : (tokenParam.getD [] == [] ||
          !verifyToken key (tokenParam.getD []) (urlParam.getD []) bucket) = true
      · rw [if_pos h3]
        exact ⟨[("Content-Type", strUnits "application/json")], by simp, hctjson⟩
      · rw [if_neg h3]
        simp only []
        cases fetch with
        | threw msg =>
          exact ⟨[("Content-Type", strUnits "application/json")], by simp, hctjson⟩
        | got r =>
          simp only []
          by_cases hok : (!r.ok) = true
          · rw [if_pos hok]
            exact ⟨[("Content-Type", strUnits "application/json")], by simp, hctjson⟩
          · rw [if_neg hok]
            split
            · refine ⟨[("Content-Type", strUnits "application/vnd.apple.mpegurl"),
                ("Cache-Control", strUnits "public, max-age=10, s-maxage=10")], by simp, ?_⟩
              intro q hq
              rcases List.mem_cons.mp hq with rfl | hq'
              · simp
              · simp only [List.mem_singleton] at hq'
                subst hq'
                simp
            · have h0 : ∃ e, getCorsHeaders allowed origin =
                  e ++ getCorsHeaders allowed origin ∧ ExtraKeys e :=
                ⟨[], by simp, hext0⟩
              have hc1 := setIfNonempty_shape "Content-Type" r.contentType _ _ (by simp) h0
              have hc2 := setIfNonempty_shape "Content-Length" r.contentLength _ _ (by simp) hc1
              have hc3 := setIfNonempty_shape "Content-Range" r.contentRange _ _ (by simp) hc2
              have hc4 := setIfNonempty_shape "Accept-Ranges" r.acceptRanges _ _ (by simp) hc3
              obtain ⟨e, he, hek⟩ := hc4
              refine ⟨("Cache-Control", strUnits "public, max-age=3600, immutable") :: e, ?_, ?_⟩
              · simp only [setHeader, he, List.cons_append]
              · intro q hq
                rcases List.mem_cons.mp hq with rfl | hq'
                · simp
                · exact hek q hq'

/-- C9: every response the token-auth handler produces — preflight, 400,
401, rewritten playlist, binary pass-through, upstream-error and exception
paths alike — carries the computed CORS headers, and the
`Access-Control-Allow-Origin` value is the request origin when it is a
(nonempty) member of the allow-list and the first configured origin
otherwise. -/
theorem cors_on_every_response (allowed : List (List Nat)) (key : List Nat) (bucket : Nat)
    (method : List Nat) (origin urlParam tokenParam refererParam : Option (List Nat))
    (uo up cleanTargetUrl : List Nat) (fetch : FetchOutcome) :
    (∀ p ∈ getCorsHeaders allowed origin,
      lookupHeader p.1 (handlerRespond allowed key bucket method origin urlParam tokenParam
        uo up refererParam cleanTargetUrl fetch).headers = some p.2) ∧
    lookupHeader "Access-Control-Allow-Origin"
      (handlerRespond allowed key bucket method origin urlParam tokenParam
        uo up refererParam cleanTargetUrl fetch).headers =
      some (match origin with
        | some o => if o != [] && allowed.contains o then o else allowed.headD []
        | none => allowed.headD []) := by
  obtain ⟨e, he, hek⟩ := handlerRespond_shape allowed key bucket method origin urlParam
    tokenParam refererParam uo up cleanTargetUrl fetch
  constructor
  · intro p hp
    rw [he, lookup_append_skip p.1 e _ (by
      intro q hq
      rcases hek q hq with h | h | h | h | h <;>
        rcases mem_getCorsHeaders_key allowed origin p hp with h' | h' | h' | h' | h' <;>
          (rw [h, h']; decide))]
    exact lookup_cors_self allowed origin p hp
  · rw [he, lookup_append_skip _ e _ (by
      intro q hq
      rcases hek q hq with h | h | h | h | h <;> (rw [h]; decide))]
    exact lookup_cors_acao allowed origin

/-- Witness for C9 on the exception path with an allow-listed origin. -/
theorem cors_on_every_response_witness :
    (("Access-Control-Allow-Methods", strUnits "GET, OPTIONS") ∈
      getCorsHeaders [strUnits "https://imshep.vercel.app"]
        (some (strUnits "https://imshep.vercel.app"))) ∧
    lookupHeader "Access-Control-Allow-Methods"
      (handlerRespond [strUnits "https://imshep.vercel.app"] (strUnits "your-api-key-cha") 5
        (strUnits "GET") (some (strUnits "https://imshep.vercel.app"))
        (some (strUnits "https://origin.test/live/master.m3u8")) (some (strUnits "bogus"))
        (strUnits "https://proxy.test") (strUnits "/api/m3u8-proxy") none
        (strUnits "https://origin.test/live/master.m3u8")
        (FetchOutcome.threw (strUnits "network down"))).headers =
      some (strUnits "GET, OPTIONS") :=
  ⟨by decide,
    (cors_on_every_response [strUnits "https://imshep.vercel.app"] (strUnits "your-api-key-cha")
      5 (strUnits "GET") (some (strUnits "https://imshep.vercel.app"))
      (some (strUnits "https://origin.test/live/master.m3u8")) (some (strUnits "bogus")) none
      (strUnits "https://proxy.test") (strUnits "/api/m3u8-proxy")
      (strUnits "https://origin.test/live/master.m3u8")
      (FetchOutcome.threw (strUnits "network down"))).1
      ("Access-Control-Allow-Methods", strUnits "GET, OPTIONS") (by decide)⟩
